import Mathlib

/-!
# A shallow embedding of the rhizome bundle-fetch scheduler (`rhizome_fetch.c`)

This file models, in Lean 4, the data structures and operations of the
bundle-fetch scheduler found in `src/rhizome_fetch.c` of the repository:

* the five size-classed candidate queues and their insert / unqueue
  primitives (`rhizome_fetch_insert`, `rhizome_fetch_unqueue`),
* queue selection (`rhizome_find_queue`),
* the manifest version lookup (`rhizome_manifest_version_cache_lookup`),
* the ignored-manifest cache (`rhizome_ignore_manifest_check`,
  `rhizome_queue_ignore_manifest`),
* the per-slot activation function (`rhizome_fetch`) with its HTTP / MDP
  scheduling (`schedule_fetch`, `rhizome_fetch_switch_to_mdp`,
  `rhizome_fetch_mdp_requestblocks`, `rhizome_fetch_mdp_requestmanifest`),
* teardown (`rhizome_fetch_close`),
* the dispatcher (`rhizome_start_next_queued_fetch`,
  `rhizome_start_next_queued_fetches`, `rhizome_suggest_queue_manifest_import`),
* datagram content reception (`rhizome_received_content`,
  `rhizome_write_content`).

Modelling conventions:

* Machine integers (`int64_t`, `long long`) are modelled as `Int`; byte
  arrays (`unsigned char[]`) as `List Nat` whose entries are byte values.
* External collaborators (the SQLite store, manifest verification, the
  poller, sockets) are parameters collected in an `Env` record, following
  the interface contracts of the specification ("Outbound dependencies").
  The store query `SELECT version FROM MANIFESTS WHERE id=?` is the
  function `Env.storeVersion`; it is modelled as always succeeding, as in
  the spec interface `lookup_version(id) -> optional<int64>`.
* Side effects (freeing a manifest, importing a bundle, unlinking a
  scratch file, sending an overlay frame) are recorded in effect lists in
  the system state `St`, so theorems can speak about them.
* The mutually recursive call cycle
  `close -> start_next -> rhizome_fetch -> schedule_fetch -> switch_to_mdp
  -> requestblocks -> close` is broken with an explicit `fuel : Nat`
  argument, decremented on every call; exhausted fuel yields `none`
  (for `Option`-valued functions) or an unchanged state.  Theorems take
  whatever fuel they need; concrete witnesses supply enough fuel.
* A C `assert` whose failure a claim depends on (in `rhizome_fetch_close`)
  is modelled by an `Option` result, `none` meaning the assertion aborts
  the process.  The `assert`s of `rhizome_fetch_insert` /
  `rhizome_fetch_unqueue` become theorem hypotheses.
-/

set_option autoImplicit false

namespace RhizomeFetch

/-- A bundle manifest, as used by `rhizome_fetch.c`: the fields of
`rhizome_manifest` that the fetch engine reads.  `cryptoSignPublic` is the
32-byte bundle id (`RHIZOME_MANIFEST_ID_BYTES = 32` per the spec data
model: "id: 32-byte identifier").  `idField` records whether the manifest
text contains a parseable "id" field (`rhizome_manifest_get(m, "id", ...)`
succeeding); for well-formed manifests that field is the hex of
`cryptoSignPublic`, so the store is keyed by `cryptoSignPublic` here. -/
structure Manifest where
  cryptoSignPublic : List Nat
  idField : Bool
  version : Int
  fileLength : Int
  fileHashedP : Bool
  fileHexHash : String
  selfSigned : Bool
  ttl : Int
deriving DecidableEq

/-- Address of the node offering a manifest: `peer_ipandport` (`hasIP`
models `sin_family == AF_INET`, `ip` the address and port) plus the
overlay subscriber id `peer_sid`. -/
structure Peer where
  hasIP : Bool
  ip : Nat
  sid : List Nat
deriving DecidableEq

/-- `struct rhizome_fetch_candidate`. -/
structure Candidate where
  manifest : Option Manifest
  peer : Peer
  priority : Int
deriving DecidableEq

/-- The default / zeroed candidate (used for out-of-range reads, which the
C code never performs thanks to its asserts). -/
def cEmpty : Candidate :=
  { manifest := none, peer := { hasIP := false, ip := 0, sid := [] }, priority := 0 }

/-- Slot states, `RHIZOME_FETCH_*`. -/
def RHIZOME_FETCH_FREE : Nat := 0

def RHIZOME_FETCH_CONNECTING : Nat := 1

def RHIZOME_FETCH_SENDINGHTTPREQUEST : Nat := 2

def RHIZOME_FETCH_RXHTTPHEADERS : Nat := 3

def RHIZOME_FETCH_RXFILE : Nat := 4

def RHIZOME_FETCH_RXFILEMDP : Nat := 5

/-- `struct rhizome_fetch_slot`.  `fileOpen` models `slot->file != NULL`,
`fileContent` the bytes written to the scratch file so far, `watched` and
`alarmScheduled` the poller registrations of `slot->alarm`, `fd` the
socket `slot->alarm.poll.fd`. -/
structure Slot where
  state : Nat
  manifest : Option Manifest
  peer : Peer
  request : String
  request_len : Nat
  request_ofs : Nat
  bid : List Nat
  bidVersion : Int
  bidP : Bool
  pfx : List Nat
  pfx_length : Nat
  filename : String
  fileOpen : Bool
  fileContent : List Nat
  file_len : Int
  file_ofs : Int
  mdpNextTX : Int
  mdpLastRX : Int
  mdpIdleTimeout : Int
  mdpRXWindowStart : Int
  mdpRXBlockLength : Nat
  mdpRXBitmap : Nat
  fd : Int
  watched : Bool
  alarmScheduled : Bool
deriving DecidableEq

/-- A freshly initialised (all-zero / free) slot, as the static
initialisation `{ .state = RHIZOME_FETCH_FREE }` produces. -/
def slotFree : Slot :=
  { state := RHIZOME_FETCH_FREE, manifest := none
    peer := { hasIP := false, ip := 0, sid := [] }
    request := "", request_len := 0, request_ofs := 0
    bid := [], bidVersion := 0, bidP := false, pfx := [], pfx_length := 0
    filename := "", fileOpen := false, fileContent := []
    file_len := 0, file_ofs := 0
    mdpNextTX := 0, mdpLastRX := 0, mdpIdleTimeout := 0
    mdpRXWindowStart := 0, mdpRXBlockLength := 0, mdpRXBitmap := 0
    fd := -1, watched := false, alarmScheduled := false }

/-- `struct rhizome_fetch_queue`: one active slot, a bounded candidate
queue (here a list of fixed length `candidate_queue_size`) and the size
threshold (negative = unbounded, as the C uses `-1`). -/
structure FQueue where
  active : Slot
  candidates : List Candidate
  size_threshold : Int
deriving DecidableEq

/-- An overlay MDP frame, the observable output of
`overlay_mdp_dispatch`. -/
structure MdpFrame where
  srcSid : List Nat
  srcPort : Nat
  dstSid : List Nat
  dstPort : Nat
  ttl : Nat
  qos : Nat
  payload : List Nat
deriving DecidableEq

/-- `OQ_ORDINARY`: the overlay "ordinary" queue priority tag.  Modelled
from the spec ("ordinary queue priority"); the numeric value is an opaque
tag, only its identity matters. -/
def OQ_ORDINARY : Nat := 2

/-- One entry of the ignored-manifest cache (`ignored_manifest`). -/
structure IgnoredManifest where
  bid : List Nat
  peer : Peer
  timeout : Int
deriving DecidableEq

/-- The ignored-manifest cache: `IGNORED_BIN_COUNT = 64` bins of
`IGNORED_BIN_SIZE = 8` ways each. -/
structure IgnoredCache where
  bins : List (List IgnoredManifest)
deriving DecidableEq

/-- The whole mutable state of the engine: the five fetch queues (with
their active slots), the ignored-manifest cache, and effect logs —
manifests released by `rhizome_manifest_free`, bundles handed to the
importer, scratch paths unlinked, overlay frames dispatched, and whether
the activation alarm `sched_activate` is scheduled. -/
structure St where
  queues : List FQueue
  ignored : IgnoredCache
  freed : List Manifest
  imported : List Manifest
  unlinked : List String
  sentFrames : List MdpFrame
  schedActivate : Bool
deriving DecidableEq

/-- The external collaborators of the engine (spec §6 "Outbound
dependencies"), plus the success/failure of the fallible local operations
the engine performs. -/
structure Env where
  now : Int
  storeVersion : List Nat → Option Int
  storeHasFile : String → Bool
  readManifest : List Nat → Option Manifest
  verifies : Manifest → Bool
  importOk : Bool
  addManifestOk : Bool
  importDirOk : Bool
  fopenOk : Bool
  fwriteOk : Bool
  httpConnectOk : Bool
  pathOk : Bool
  mySid : List Nat
  portResponse : Nat
  portRequest : Nat
  fetchDelayMs : Int
  randWay : Nat

/-- Read queue `k` (out-of-range reads yield an empty dummy queue; the C
never performs them). -/
def getQ (st : St) (k : Nat) : FQueue :=
  st.queues.getD k { active := slotFree, candidates := [], size_threshold := 0 }

/-- Replace queue `k`. -/
def setQ (st : St) (k : Nat) (q : FQueue) : St :=
  { st with queues := st.queues.set k q }

/-- Read the active slot of queue `k`. -/
def getSlot (st : St) (k : Nat) : Slot :=
  (getQ st k).active

/-- Replace the active slot of queue `k`. -/
def setSlot (st : St) (k : Nat) (s : Slot) : St :=
  setQ st k { getQ st k with active := s }

/-- Record a `rhizome_manifest_free` effect (if a manifest was freed). -/
def addFreed (st : St) (m : Option Manifest) : St :=
  match m with
  | none => st
  | some m => { st with freed := m :: st.freed }

/-! ## Queue selection (`rhizome_find_queue`) -/

/-- The scanning loop of `rhizome_find_queue`, carrying the index of the
queue under inspection: return the first queue whose `size_threshold` is
negative (unbounded) or strictly greater than `size`. -/
def findQLoop (i : Nat) (size : Int) : List FQueue → Option Nat
  | [] => none
  | q :: qs =>
    if q.size_threshold < 0 ∨ size < q.size_threshold then some i
    else findQLoop (i + 1) size qs

/-- `rhizome_find_queue(size)`: index of the first queue (in ascending
threshold order) that will hold a payload of `size` bytes, or `none`. -/
def rhizome_find_queue (qs : List FQueue) (size : Int) : Option Nat :=
  findQLoop 0 size qs

/-! ## Candidate queue primitives (`rhizome_fetch_insert`, `rhizome_fetch_unqueue`) -/

/-- The occupancy view of a candidate queue: just the manifest pointers. -/
def mques (cs : List Candidate) : List (Option Manifest) :=
  cs.map (fun c => c.manifest)

/-- The "contiguous used prefix" invariant exactly as the specification
states it: if slot `i` is empty then all slots `j > i` are empty. -/
def contigProp (l : List (Option Manifest)) : Prop :=
  ∀ j, j < l.length → ∀ i, i < j → l.getD i none = none → l.getD j none = none

instance contigPropDecidable (l : List (Option Manifest)) : Decidable (contigProp l) := by
  unfold contigProp
  exact inferInstance

/-- The shifting loop of `rhizome_fetch_unqueue`
(`for (; c < e && c[1].manifest; ++c) c[0] = c[1]; c->manifest = NULL;`),
acting on the queue suffix that starts at the unqueued position: each
element is overwritten by its successor while the successor holds a
manifest; the element where the loop stops has its manifest nulled. -/
def shiftTail (c : Candidate) : List Candidate → List Candidate
  | [] => [{ c with manifest := none }]
  | c2 :: rest =>
    match c2.manifest with
    | some _ => c2 :: shiftTail c2 rest
    | none => { c with manifest := none } :: c2 :: rest

/-- `rhizome_fetch_unqueue(q, i)`: free the manifest at position `i`
(returned as the second component), then close the gap by shifting
successors forward.  The C asserts `0 <= i < size`; on an out-of-range
`i` the model returns the queue unchanged. -/
def rhizome_fetch_unqueue (cs : List Candidate) (i : Nat) :
    List Candidate × Option Manifest :=
  match cs.drop i with
  | [] => (cs, none)
  | c :: rest => (cs.take i ++ shiftTail c rest, c.manifest)

/-- The descending scan of `rhizome_fetch_insert`
(`while (e > c && !e[-1].manifest) --e;`): starting from index `e`, move
down while the element below is empty and the index stays above `i`. -/
def descendE (cs : List Candidate) (i : Nat) : Nat → Nat
  | 0 => 0
  | e + 1 =>
    if i ≤ e ∧ (cs.getD e cEmpty).manifest = none then descendE cs i e
    else e + 1

/-- The shifting loop of `rhizome_fetch_insert`
(`for (; e > c; --e) e[0] = e[-1]; c->manifest = NULL;`): positions
`i+1 .. e` receive the old `i .. e-1`, and position `i` keeps its old
candidate with the manifest pointer nulled. -/
def spliceShift (cs : List Candidate) (i e : Nat) : List Candidate :=
  cs.take i ++ ({ cs.getD i cEmpty with manifest := none } :: (cs.drop i).take (e - i))
    ++ cs.drop (e + 1)

/-- `rhizome_fetch_insert(q, i)`: open an empty element at position `i` by
shifting candidates backward; if the queue was full the tail element is
discarded and its manifest freed (returned as the second component).  The
caller then installs the new candidate at position `i`. -/
def rhizome_fetch_insert (cs : List Candidate) (i : Nat) :
    List Candidate × Option Manifest :=
  if cs.length = 0 then (cs, none)
  else if (cs.getD (cs.length - 1) cEmpty).manifest.isSome then
    (spliceShift cs i (cs.length - 1), (cs.getD (cs.length - 1) cEmpty).manifest)
  else
    (spliceShift cs i (descendE cs i (cs.length - 1)), none)

/-! ### Lemmas about contiguity and the queue primitives -/

theorem mques_length (cs : List Candidate) : (mques cs).length = cs.length := by
  simp [mques]

theorem mques_getD (cs : List Candidate) (i : Nat) :
    (mques cs).getD i none = (cs.getD i cEmpty).manifest := by
  simp only [mques, List.getD_eq_getElem?_getD, List.getElem?_map]
  cases cs[i]? <;> simp [cEmpty]

/-- Structural characterisation of contiguity, one direction: a list of
the form `somes ++ nones` is contiguous. -/
theorem contig_of_struct (ms : List Manifest) (k : Nat) :
    contigProp (ms.map some ++ List.replicate k none) := by
  intro j hj i hij hi
  have hlen : (ms.map some ++ List.replicate k none).length = ms.length + k := by
    simp
  have hgetD : ∀ n, (ms.map some ++ List.replicate k none).getD n none
      = if n < ms.length then ms[n]?.map some |>.getD none else none := by
    intro n
    by_cases hn : n < ms.length
    · simp [List.getD_eq_getElem?_getD, List.getElem?_append_left, hn,
        List.getElem?_map]
    · simp only [List.getD_eq_getElem?_getD, hn, if_false]
      rw [List.getElem?_append_right (by simpa using Nat.le_of_not_lt hn)]
      rcases Nat.lt_or_ge (n - ms.length) k with h | h
      · simp [List.getElem?_replicate, h]
      · rw [List.getElem?_eq_none] <;> simp [h]
  rw [hgetD] at hi ⊢
  by_cases hjlt : j < ms.length
  · exfalso
    have hilt : i < ms.length := lt_trans hij hjlt
    simp only [hilt, if_true] at hi
    rcases List.getElem?_eq_some_iff.2 ⟨hilt, rfl⟩ with h
    rw [List.getElem?_eq_getElem hilt] at hi
    simp at hi
  · simp [hjlt]

/-- Structural characterisation, the other direction: any contiguous list
splits as a block of `some`s followed by `none`s. -/
theorem struct_of_contig :
    ∀ l : List (Option Manifest), contigProp l →
      ∃ (ms : List Manifest) (k : Nat), l = ms.map some ++ List.replicate k none
  | [], _ => ⟨[], 0, rfl⟩
  | some m :: t, h => by
    have ht : contigProp t := by
      intro j hj i hij hi
      have := h (j + 1) (by simpa using Nat.succ_lt_succ hj) (i + 1)
        (Nat.succ_lt_succ hij) (by simpa using hi)
      simpa using this
    obtain ⟨ms, k, rfl⟩ := struct_of_contig t ht
    exact ⟨m :: ms, k, rfl⟩
  | none :: t, h => by
    refine ⟨[], t.length + 1, ?_⟩
    have ht : ∀ j, j < t.length → t.getD j none = none := by
      intro j hj
      have := h (j + 1) (by simpa using Nat.succ_lt_succ hj) 0 (Nat.succ_pos j) (by simp)
      simpa using this
    have : t = List.replicate t.length none := by
      apply List.eq_replicate_iff.2
      refine ⟨rfl, ?_⟩
      intro b hb
      obtain ⟨j, hj, rfl⟩ := List.mem_iff_getElem.1 hb
      have := ht j hj
      rwa [List.getD_eq_getElem?_getD, List.getElem?_eq_getElem hj] at this
    rw [List.replicate_succ]
    simpa using this

/-- `getD` of a structural list is `none` exactly from the `some`-block
boundary on. -/
theorem struct_getD_none_iff (ms : List Manifest) (k : Nat) (j : Nat) :
    (ms.map some ++ List.replicate k none).getD j none = none ↔ ms.length ≤ j := by
  by_cases hj : j < ms.length
  · rw [List.getD_eq_getElem?_getD, List.getElem?_append_left (by simpa using hj),
      List.getElem?_map, List.getElem?_eq_getElem hj]
    simp [Nat.not_le_of_lt hj]
  · have hle := Nat.le_of_not_lt hj
    simp only [List.getD_eq_getElem?_getD]
    rw [List.getElem?_append_right (by simpa using hle)]
    rcases Nat.lt_or_ge (j - ms.length) k with h | h
    · simp [List.getElem?_replicate, h, hle]
    · rw [List.getElem?_eq_none] <;> simp [h, hle]

theorem mques_cons (c : Candidate) (r : List Candidate) :
    mques (c :: r) = c.manifest :: mques r := rfl

theorem contig_tail {x : Option Manifest} {t : List (Option Manifest)}
    (h : contigProp (x :: t)) : contigProp t := by
  intro j hj i hij hi
  have := h (j + 1) (by simpa using Nat.succ_lt_succ hj) (i + 1)
    (Nat.succ_lt_succ hij) (by simpa using hi)
  simpa using this

theorem contig_cons_none {t : List (Option Manifest)}
    (h : contigProp (none :: t)) : t = List.replicate t.length none := by
  apply List.eq_replicate_iff.2
  refine ⟨rfl, ?_⟩
  intro b hb
  obtain ⟨j, hj, rfl⟩ := List.mem_iff_getElem.1 hb
  have := h (j + 1) (by simpa using Nat.succ_lt_succ hj) 0 (Nat.succ_pos j) (by simp)
  rwa [List.getD_cons_succ, List.getD_eq_getElem?_getD, List.getElem?_eq_getElem hj] at this

theorem contig_drop {l : List (Option Manifest)} (h : contigProp l) (i : Nat) :
    contigProp (l.drop i) := by
  obtain ⟨ms, k, rfl⟩ := struct_of_contig l h
  rw [List.drop_append_eq_append_drop, ← List.map_drop, List.drop_replicate]
  exact contig_of_struct _ _

/-- The unqueue shifting loop, on the occupancy view: on a contiguous
suffix it amounts to dropping the head and appending an empty tail. -/
theorem mques_shiftTail (c : Candidate) :
    ∀ rest : List Candidate, contigProp (mques rest) →
      mques (shiftTail c rest) = mques rest ++ [none]
  | [], _ => by simp [shiftTail, mques]
  | c2 :: r, h => by
    rcases h2 : c2.manifest with _ | m2
    · have hc : contigProp (mques (c2 :: r)) := h
      rw [mques_cons, h2] at hc
      have hrep : mques r = List.replicate (mques r).length none :=
        contig_cons_none hc
      simp only [shiftTail, h2, mques_cons]
      show (none : Option Manifest) :: none :: mques r = none :: (mques r ++ [none])
      rw [hrep, ← List.replicate_succ']
      simp only [← List.replicate_succ]
    · have ht : contigProp (mques r) := by
        rw [mques_cons] at h
        exact contig_tail h
      simp only [shiftTail, h2, mques_cons, List.cons_append]
      rw [mques_shiftTail c2 r ht]

/-- The descending scan of `rhizome_fetch_insert` stops exactly at the
boundary of the occupied block. -/
theorem descendE_eq (cs : List Candidate) (i p : Nat) (hip : i ≤ p)
    (hnone : ∀ j, p ≤ j → (cs.getD j cEmpty).manifest = none)
    (hsome : ∀ j, j < p → (cs.getD j cEmpty).manifest ≠ none) :
    ∀ E, p ≤ E → descendE cs i E = p := by
  intro E
  induction E with
  | zero =>
    intro hE
    have : p = 0 := Nat.le_zero.1 hE
    simp [descendE, this]
  | succ e ih =>
    intro hE
    rw [descendE]
    by_cases hpe : p ≤ e
    · rw [if_pos ⟨le_trans hip hpe, hnone e hpe⟩]
      exact ih hpe
    · have hp : p = e + 1 := by omega
      rw [if_neg]
      · exact hp.symm
      · rintro ⟨-, h2⟩
        exact hsome e (by omega) h2

theorem mques_spliceShift (cs : List Candidate) (i e : Nat) :
    mques (spliceShift cs i e)
      = (mques cs).take i ++ none :: ((mques cs).drop i).take (e - i)
        ++ (mques cs).drop (e + 1) := by
  simp [spliceShift, mques, List.map_take, List.map_drop]

theorem set_append_cons {α : Type} (X : List α) (y v : α) (T : List α) :
    (X ++ y :: T).set X.length v = X ++ v :: T := by
  induction X with
  | nil => rfl
  | cons a X ih => simp [ih]

theorem set_append_cons_of_len {α : Type} (X : List α) (y v : α) (T : List α)
    (i : Nat) (hX : X.length = i) : (X ++ y :: T).set i v = X ++ v :: T := by
  subst hX
  exact set_append_cons X y v T

/-- `rhizome_fetch_insert` under the invariant and the function's own
asserts: it shifts `[i..end-1]` back by one (leaving an empty element at
`i`), and the freed manifest is exactly the old tail element's manifest
(so a manifest is freed precisely when the queue was full). -/
theorem insert_spec (cs : List Candidate) (i : Nat) (h : contigProp (mques cs))
    (hi : i < cs.length) (hassert : i = 0 ∨ (mques cs).getD (i - 1) none ≠ none) :
    mques (rhizome_fetch_insert cs i).1
        = (mques cs).take i ++ none :: ((mques cs).drop i).dropLast
      ∧ (rhizome_fetch_insert cs i).2 = (mques cs).getD (cs.length - 1) none := by
  obtain ⟨ms, k, hl⟩ := struct_of_contig (mques cs) h
  have hlen : cs.length = ms.length + k := by
    have h1 := mques_length cs
    rw [hl] at h1
    simpa using h1.symm
  have hip : i ≤ ms.length := by
    rcases hassert with rfl | hne
    · exact Nat.zero_le _
    · rw [hl] at hne
      have hlt : ¬ ms.length ≤ i - 1 :=
        fun hc => hne ((struct_getD_none_iff ms k (i - 1)).2 hc)
      omega
  have hne0 : ¬ cs.length = 0 := by omega
  have hgetD : ∀ j, (mques cs).getD j none = none ↔ ms.length ≤ j := by
    intro j
    rw [hl]
    exact struct_getD_none_iff ms k j
  by_cases hk : k = 0
  · -- the queue is full: the tail is discarded and its manifest freed
    have hfull : ((cs.getD (cs.length - 1) cEmpty).manifest).isSome := by
      rw [← mques_getD]
      rcases ho : (mques cs).getD (cs.length - 1) none with _ | m0
      · exfalso
        have := (hgetD (cs.length - 1)).1 ho
        omega
      · simp
    rw [rhizome_fetch_insert, if_neg hne0, if_pos hfull]
    constructor
    · rw [mques_spliceShift]
      have harith : cs.length - 1 + 1 = cs.length := by omega
      rw [harith, ← mques_length cs, List.drop_length, List.append_nil,
        List.dropLast_eq_take, List.length_drop, mques_length]
      have harith2 : cs.length - 1 - i = cs.length - i - 1 := by omega
      rw [harith2]
    · rw [mques_getD]
  · -- the queue has a free tail element: nothing is freed
    have hnotfull : ¬ ((cs.getD (cs.length - 1) cEmpty).manifest).isSome := by
      rw [← mques_getD]
      have : (mques cs).getD (cs.length - 1) none = none := (hgetD _).2 (by omega)
      rw [this]
      simp
    have hdesc : descendE cs i (cs.length - 1) = ms.length := by
      apply descendE_eq cs i ms.length hip
      · intro j hj
        rw [← mques_getD]
        exact (hgetD j).2 hj
      · intro j hj hc
        rw [← mques_getD] at hc
        have := (hgetD j).1 hc
        omega
      · omega
    rw [rhizome_fetch_insert, if_neg hne0, if_neg hnotfull, hdesc]
    have hA : (List.map some ms).length = ms.length := by simp
    have hdropi : (mques cs).drop i = (List.map some ms).drop i ++ List.replicate k none := by
      rw [hl, List.drop_append_eq_append_drop]
      have : i - (List.map some ms).length = 0 := by omega
      rw [this, List.drop_zero]
    have hdroplen : ((List.map some ms).drop i).length = ms.length - i := by
      simp
    constructor
    · rw [mques_spliceShift, hdropi]
      have htake : ((List.map some ms).drop i ++ List.replicate k none).take (ms.length - i)
          = (List.map some ms).drop i := by
        rw [List.take_append_eq_append_take, hdroplen, Nat.sub_self, List.take_zero,
          List.append_nil, ← hdroplen, List.take_length]
      rw [htake]
      have hdropp1 : (mques cs).drop (ms.length + 1) = List.replicate (k - 1) none := by
        rw [hl, List.drop_append_eq_append_drop, List.drop_eq_nil_of_le (by omega),
          List.nil_append, List.drop_replicate]
        have : ms.length + 1 - (List.map some ms).length = 1 := by omega
        rw [this]
      rw [hdropp1]
      have hdropLast : ((List.map some ms).drop i ++ List.replicate k none).dropLast
          = (List.map some ms).drop i ++ List.replicate (k - 1) none := by
        have hk1 : k = (k - 1) + 1 := by omega
        conv_lhs => rw [hk1, List.replicate_succ']
        rw [← List.append_assoc, List.dropLast_concat]
      rw [hdropLast]
      simp [List.append_assoc]
    · have : (mques cs).getD (cs.length - 1) none = none := (hgetD _).2 (by omega)
      rw [this]

/-- After the caller installs the new candidate at position `i`, the
contiguous-prefix invariant holds again. -/
theorem insert_install_contig (cs : List Candidate) (i : Nat) (m : Manifest)
    (h : contigProp (mques cs)) (hi : i < cs.length)
    (hassert : i = 0 ∨ (mques cs).getD (i - 1) none ≠ none) :
    contigProp ((mques (rhizome_fetch_insert cs i).1).set i (some m)) := by
  rw [(insert_spec cs i h hi hassert).1]
  obtain ⟨ms, k, hl⟩ := struct_of_contig (mques cs) h
  have hlen : cs.length = ms.length + k := by
    have h1 := mques_length cs
    rw [hl] at h1
    simpa using h1.symm
  have hip : i ≤ ms.length := by
    rcases hassert with rfl | hne
    · exact Nat.zero_le _
    · rw [hl] at hne
      have hlt : ¬ ms.length ≤ i - 1 :=
        fun hc => hne ((struct_getD_none_iff ms k (i - 1)).2 hc)
      omega
  have htakelen : ((mques cs).take i).length = i := by
    rw [List.length_take, mques_length]
    omega
  have hset : ((mques cs).take i ++ none :: ((mques cs).drop i).dropLast).set i (some m)
      = (mques cs).take i ++ some m :: ((mques cs).drop i).dropLast :=
    set_append_cons_of_len _ _ _ _ i htakelen
  rw [hset]
  have htake : (mques cs).take i = List.map some (ms.take i) := by
    rw [hl, List.take_append_eq_append_take]
    have h0 : i - (List.map some ms).length = 0 := by simpa using by omega
    rw [h0, List.take_zero, List.append_nil, List.map_take]
  have hdropi : (mques cs).drop i = (List.map some ms).drop i ++ List.replicate k none := by
    rw [hl, List.drop_append_eq_append_drop]
    have : i - (List.map some ms).length = 0 := by simpa using by omega
    rw [this, List.drop_zero]
  by_cases hk : k = 0
  · subst hk
    have : ((mques cs).drop i).dropLast = List.map some ((ms.drop i).dropLast) := by
      rw [hdropi]
      simp [List.map_dropLast, List.map_drop]
    rw [htake, this]
    have := contig_of_struct (ms.take i ++ m :: (ms.drop i).dropLast) 0
    simpa using this
  · have : ((mques cs).drop i).dropLast
        = List.map some (ms.drop i) ++ List.replicate (k - 1) none := by
      rw [hdropi]
      have hk1 : k = (k - 1) + 1 := by omega
      conv_lhs => rw [hk1, List.replicate_succ']
      rw [← List.append_assoc, List.dropLast_concat, List.map_drop]
    rw [htake, this]
    have := contig_of_struct (ms.take i ++ m :: ms.drop i) (k - 1)
    simpa using this

/-- `rhizome_fetch_unqueue` under the invariant: it frees the manifest at
position `i` and closes the gap, leaving an empty tail element, and it
preserves the invariant. -/
theorem unqueue_spec (cs : List Candidate) (i : Nat) (h : contigProp (mques cs))
    (hi : i < cs.length) :
    mques (rhizome_fetch_unqueue cs i).1
        = (mques cs).take i ++ (mques cs).drop (i + 1) ++ [none]
      ∧ (rhizome_fetch_unqueue cs i).2 = (mques cs).getD i none
      ∧ contigProp (mques (rhizome_fetch_unqueue cs i).1) := by
  cases hdrop : cs.drop i with
  | nil =>
    exfalso
    have := congrArg List.length hdrop
    rw [List.length_drop] at this
    simp at this
    omega
  | cons c rest =>
    have hdropq : mques (cs.drop i) = (mques cs).drop i := by
      simp [mques, List.map_drop]
    have hstar : (mques cs).drop i = c.manifest :: mques rest := by
      rw [← hdropq, hdrop, mques_cons]
    have hcontigrest : contigProp (mques rest) := by
      have := contig_drop h i
      rw [hstar] at this
      exact contig_tail this
    have hmrest : mques rest = (mques cs).drop (i + 1) := by
      have := congrArg List.tail hstar
      rw [List.tail_drop] at this
      simpa using this.symm
    simp only [rhizome_fetch_unqueue, hdrop]
    refine ⟨?_, ?_, ?_⟩
    · show mques (cs.take i ++ shiftTail c rest) = _
      rw [mques, List.map_append, ← mques, ← mques, mques_shiftTail c rest hcontigrest,
        hmrest]
      rw [show mques (cs.take i) = (mques cs).take i by simp [mques, List.map_take],
        List.append_assoc]
    · show c.manifest = (mques cs).getD i none
      have h0 : ((mques cs).drop i)[0]? = some c.manifest := by
        rw [hstar]
        simp
      rw [List.getElem?_drop] at h0
      rw [List.getD_eq_getElem?_getD]
      simp only [Nat.add_zero] at h0
      rw [h0]
      rfl
    · show contigProp (mques (cs.take i ++ shiftTail c rest))
      rw [mques, List.map_append, ← mques, ← mques, mques_shiftTail c rest hcontigrest,
        hmrest, show mques (cs.take i) = (mques cs).take i by simp [mques, List.map_take]]
      obtain ⟨ms, k, hl⟩ := struct_of_contig (mques cs) h
      have hlen : cs.length = ms.length + k := by
        have h1 := mques_length cs
        rw [hl] at h1
        simpa using h1.symm
      by_cases hip : i ≤ ms.length
      · have htake : (mques cs).take i = List.map some (ms.take i) := by
          rw [hl, List.take_append_eq_append_take]
          have h0 : i - (List.map some ms).length = 0 := by simpa using by omega
          rw [h0, List.take_zero, List.append_nil, List.map_take]
        by_cases hieq : i = ms.length
        · -- unqueueing the first empty element (or the boundary)
          have hdrop1 : (mques cs).drop (i + 1) = List.replicate (k - 1) none := by
            rw [hl, List.drop_append_eq_append_drop, List.drop_eq_nil_of_le (by simp; omega),
              List.nil_append, List.drop_replicate]
            have : i + 1 - (List.map some ms).length = 1 := by simp; omega
            rw [this]
          rw [htake, hdrop1]
          have hrepl : List.replicate (k - 1) (none : Option Manifest) ++ [none]
              = List.replicate (k - 1 + 1) none := (List.replicate_succ' _ _).symm
          rw [hrepl]
          exact contig_of_struct _ _
        · have hlt : i < ms.length := by omega
          have hdrop1 : (mques cs).drop (i + 1)
              = List.map some (ms.drop (i + 1)) ++ List.replicate k none := by
            rw [hl, List.drop_append_eq_append_drop]
            have : i + 1 - (List.map some ms).length = 0 := by simp; omega
            rw [this, List.drop_zero, List.map_drop]
          rw [htake, hdrop1]
          have := contig_of_struct (ms.take i ++ ms.drop (i + 1)) (k + 1)
          rw [List.replicate_add] at this
          simpa [List.append_assoc] using this
      · -- unqueueing inside the empty suffix
        have hgt : ms.length < i := by omega
        have htake : (mques cs).take i
            = List.map some ms ++ List.replicate (i - ms.length) none := by
          rw [hl, List.take_append_eq_append_take, List.take_of_length_le (by simp; omega),
            List.take_replicate]
          have : min (i - (List.map some ms).length) k = i - ms.length := by simp; omega
          rw [this]
        have hdrop1 : (mques cs).drop (i + 1)
            = List.replicate (k - (i + 1 - ms.length)) none := by
          rw [hl, List.drop_append_eq_append_drop, List.drop_eq_nil_of_le (by simp; omega),
            List.nil_append, List.drop_replicate]
          simp
        rw [htake, hdrop1]
        rw [show List.replicate (k - (i + 1 - ms.length)) (none : Option Manifest) ++ [none]
              = List.replicate ((k - (i + 1 - ms.length)) + 1) none
            from (List.replicate_succ' _ _).symm,
          List.append_assoc,
          show List.replicate (i - ms.length) (none : Option Manifest)
                ++ List.replicate ((k - (i + 1 - ms.length)) + 1) none
              = List.replicate ((i - ms.length) + ((k - (i + 1 - ms.length)) + 1)) none
            from (List.replicate_add _ _ _).symm]
        exact contig_of_struct _ _

/-! ## The manifest version lookup (`rhizome_manifest_version_cache_lookup`) -/

/-- `rhizome_manifest_version_cache_lookup(m)`: fails (returns `-1`, via
`WHY("Ignoring bad manifest (no ID field)")`) when the manifest has no
"id" field; otherwise queries the backing store
(`SELECT version FROM MANIFESTS WHERE id=?`, here `env.storeVersion`,
keyed by the binary id whose hex the "id" field carries; `dbVersion`
stays `-1` when no row matches, and the query itself is modelled as
always succeeding, following the spec interface
`lookup_version(id) -> optional<int64>`) and returns `-1` ("already have
that version or newer") when the stored version is `>=` the manifest's
version, else `0` ("fetch worth").  Everything after the first `return 0`
in the C function — including the in-memory cache probe whose
strictly-newer branch returns `-2` — is dead code and is not part of the
live function. -/
def rhizome_manifest_version_cache_lookup (env : Env) (m : Manifest) : Int :=
  if ¬ m.idField then -1
  else if (env.storeVersion m.cryptoSignPublic).getD (-1) ≥ m.version then -1
  else 0

/-! ## The ignored-manifest cache -/

def IGNORED_BIN_SIZE : Nat := 8

def IGNORED_BIN_COUNT : Nat := 64

/-- The empty / zeroed ignore-cache entry. -/
def iEmpty : IgnoredManifest :=
  { bid := [], peer := { hasIP := false, ip := 0, sid := [] }, timeout := 0 }

/-- Bin index: top `IGNORED_BIN_BITS = 6` bits of the first id byte
(`m->cryptoSignPublic[0] >> (8-6)`).  Bytes are `< 256` in C; the model
reduces mod 256 as the machine does. -/
def ignoredBin (m : Manifest) : Nat :=
  m.cryptoSignPublic.headD 0 % 256 / 4

/-- The scanning loop of `rhizome_ignore_manifest_check`: on the first way
whose 32-byte bid equals the manifest id, return whether its timeout lies
in the future; if no way matches, return false. -/
def ignoreScan (bid : List Nat) (now : Int) : List IgnoredManifest → Bool
  | [] => false
  | e :: rest => if e.bid = bid then decide (e.timeout > now) else ignoreScan bid now rest

/-- `rhizome_ignore_manifest_check(m, now)`. -/
def rhizome_ignore_manifest_check (c : IgnoredCache) (m : Manifest) (now : Int) : Bool :=
  ignoreScan m.cryptoSignPublic now (c.bins.getD (ignoredBin m) [])

/-- The way-selection loop of `rhizome_queue_ignore_manifest`: the first
way already holding this id, if any. -/
def ignoreFind (bid : List Nat) : List IgnoredManifest → Option Nat
  | [] => none
  | e :: rest => if e.bid = bid then some 0 else (ignoreFind bid rest).map (· + 1)

/-- `rhizome_queue_ignore_manifest(m, peer, timeout)`: reuse the way
already holding this id, otherwise pick a random way (`rand % 8`), and
overwrite it with `{bid, peer, expiry := now + timeout}`. -/
def rhizome_queue_ignore_manifest (c : IgnoredCache) (m : Manifest) (peer : Peer)
    (timeout : Int) (now : Int) (rand : Nat) : IgnoredCache :=
  { bins := c.bins.set (ignoredBin m)
      ((c.bins.getD (ignoredBin m) []).set
        (match ignoreFind m.cryptoSignPublic (c.bins.getD (ignoredBin m) []) with
         | some s => s
         | none => rand % IGNORED_BIN_SIZE)
        { bid := m.cryptoSignPublic, peer := peer, timeout := now + timeout }) }

theorem getD_set_self {α : Type} (l : List α) (n : Nat) (a d : α) (h : n < l.length) :
    (l.set n a).getD n d = a := by
  rw [List.getD_eq_getElem?_getD, List.getElem?_set_self (by simpa using h)]
  rfl

theorem ignoreScan_set (bid : List Nat) (now : Int) (entry : IgnoredManifest)
    (hbid : entry.bid = bid) :
    ∀ (ways : List IgnoredManifest) (slot : Nat), slot < ways.length →
      (∀ j, j < slot → (ways.getD j iEmpty).bid ≠ bid) →
      ignoreScan bid now (ways.set slot entry) = decide (entry.timeout > now)
  | [], slot, h, _ => absurd h (by simp)
  | e :: rest, 0, _, _ => by simp [ignoreScan, hbid]
  | e :: rest, s + 1, h, hj => by
    have he : e.bid ≠ bid := by
      have := hj 0 (Nat.succ_pos s)
      simpa using this
    simp only [List.set_cons_succ, ignoreScan, if_neg he]
    exact ignoreScan_set bid now entry hbid rest s (by simpa using h)
      (fun j hjs => by
        have := hj (j + 1) (Nat.succ_lt_succ hjs)
        simpa using this)

theorem ignoreFind_some (bid : List Nat) :
    ∀ (l : List IgnoredManifest) (s : Nat), ignoreFind bid l = some s →
      s < l.length ∧ ∀ j, j < s → (l.getD j iEmpty).bid ≠ bid
  | [], s, h => by simp [ignoreFind] at h
  | e :: rest, s, h => by
    by_cases he : e.bid = bid
    · simp only [ignoreFind, if_pos he] at h
      obtain rfl : (0 : Nat) = s := Option.some.injEq _ _ ▸ by simpa using h
      exact ⟨Nat.succ_pos _, fun j hj => absurd hj (Nat.not_lt_zero j)⟩
    · simp only [ignoreFind, if_neg he] at h
      rcases hr : ignoreFind bid rest with _ | s0
      · rw [hr] at h
        simp at h
      · rw [hr] at h
        obtain rfl : s0 + 1 = s := by simpa using h
        obtain ⟨h1, h2⟩ := ignoreFind_some bid rest s0 hr
        refine ⟨by simpa using Nat.succ_lt_succ h1, ?_⟩
        intro j hj
        cases j with
        | zero => simpa using he
        | succ j0 =>
          have := h2 j0 (by omega)
          simpa using this

theorem ignoreFind_none (bid : List Nat) :
    ∀ l : List IgnoredManifest, ignoreFind bid l = none →
      ∀ j, j < l.length → (l.getD j iEmpty).bid ≠ bid
  | [], _, j, hj => absurd hj (by simp)
  | e :: rest, h, j, hj => by
    by_cases he : e.bid = bid
    · simp [ignoreFind, he] at h
    · simp only [ignoreFind, if_neg he] at h
      rcases hr : ignoreFind bid rest with _ | s0
      · cases j with
        | zero => simpa using he
        | succ j0 =>
          have := ignoreFind_none bid rest hr j0 (by simpa using hj)
          simpa using this
      · rw [hr] at h
        simp at h

/-! ## The dispatcher entry point (`rhizome_suggest_queue_manifest_import`) -/

/-- Number of occupied elements of a candidate queue. -/
def countM (cs : List Candidate) : Nat :=
  cs.countP (fun c => c.manifest.isSome)

theorem countM_shiftTail (c : Candidate) :
    ∀ rest : List Candidate, countM (shiftTail c rest) = countM rest
  | [] => by simp [shiftTail, countM]
  | c2 :: r => by
    rcases h2 : c2.manifest with _ | m2
    · simp [shiftTail, h2, countM, List.countP_cons]
    · have ih := countM_shiftTail c2 r
      simp only [shiftTail, h2]
      simp only [countM, List.countP_cons, h2] at ih ⊢
      simp [ih, h2]

/-- Outcome of the duplicate-scanning loop inside
`rhizome_suggest_queue_manifest_import`. -/
inductive InnerOut
  | foundNewer
  | verifyFail
  | fallthrough (ci : Option Nat)
deriving DecidableEq

/-- The inner (per-queue) loop of the duplicate scan: walk the candidate
queue; stop at the first empty element (recording it as the insertion
point when this is the target queue); on a candidate with the same
manifest id, return `foundNewer` if its version is `>=` the new one,
evict it (continuing at the same index over the shifted queue) if older
and the new manifest verifies, or return `verifyFail`; on a candidate
with a different id, record a displacement point when its priority is
lower, and advance.  Returns the updated queue, the evicted manifests,
and the outcome. -/
def scanInner (env : Env) (m : Manifest) (isTarget : Bool) (pr : Int) :
    Nat → Nat → Option Nat → List Candidate → List Candidate × List Manifest × InnerOut
  | 0, _, ci, cs => (cs, [], .fallthrough ci)
  | _ + 1, _, ci, [] => ([], [], .fallthrough ci)
  | fuel + 1, j, ci, c :: rest =>
    match c.manifest with
    | none =>
      (c :: rest, [], .fallthrough (if ci.isNone && isTarget then some j else ci))
    | some cm =>
      if cm.cryptoSignPublic = m.cryptoSignPublic then
        if cm.version ≥ m.version then (c :: rest, [], .foundNewer)
        else if ¬ m.selfSigned ∧ ¬ env.verifies m then (c :: rest, [], .verifyFail)
        else
          let r := scanInner env m isTarget pr fuel j ci (shiftTail c rest)
          (r.1, cm :: r.2.1, r.2.2)
      else
        let r := scanInner env m isTarget pr fuel (j + 1)
          (if ci.isNone && isTarget && decide (c.priority < pr) then some j else ci) rest
        (c :: r.1, r.2.1, r.2.2)

/-- The outer loop of the duplicate scan: every queue, in ascending
order, threading the insertion-point accumulator `ci`.  (`scanInner`'s
fuel exceeds its loop measure, so the fuel never runs out.) -/
def scanQueues (env : Env) (m : Manifest) (qiIdx : Nat) (pr : Int) :
    Nat → Option Nat → List FQueue → List FQueue × List Manifest × InnerOut
  | _, ci, [] => ([], [], .fallthrough ci)
  | i, ci, q :: qs =>
    let r := scanInner env m (i == qiIdx) pr
      (countM q.candidates + q.candidates.length + 1) 0 ci q.candidates
    match r.2.2 with
    | .fallthrough ci2 =>
      let r2 := scanQueues env m qiIdx pr (i + 1) ci2 qs
      ({ q with candidates := r.1 } :: r2.1, r.2.1 ++ r2.2.1, r2.2.2)
    | out => ({ q with candidates := r.1 } :: qs, r.2.1, out)

/-- `rhizome_suggest_queue_manifest_import(m, peer)`: take ownership of
`m`; reject (freeing `m`) when the store already holds an equal-or-newer
version; for a zero-length payload verify and import immediately (a
verification failure ignore-caches the id for 60 s and frees `m`);
otherwise select the size-class queue, run the duplicate scan over every
queue, verify late, insert at the chosen position (possibly evicting the
tail of a full queue), and arm the activation alarm.  Returns the C
return code (`0` ok / queued, `1` no free spot, `-1` rejected) and the
new state. -/
def rhizome_suggest_queue_manifest_import (env : Env) (st : St) (m : Manifest)
    (peer : Peer) : Int × St :=
  if rhizome_manifest_version_cache_lookup env m ≠ 0 then
    (-1, { st with freed := m :: st.freed })
  else if m.fileLength = 0 then
    if ¬ env.verifies m then
      (-1, { st with
        ignored := rhizome_queue_ignore_manifest st.ignored m peer 60000 env.now env.randWay
        freed := m :: st.freed })
    else (0, { st with imported := m :: st.imported })
  else
    match rhizome_find_queue st.queues m.fileLength with
    | none => (-1, { st with freed := m :: st.freed })
    | some qiIdx =>
      let r := scanQueues env m qiIdx 100 0 none st.queues
      let st1 : St := { st with queues := r.1, freed := r.2.1 ++ st.freed }
      match r.2.2 with
      | .foundNewer => (0, { st1 with freed := m :: st1.freed })
      | .verifyFail =>
        (-1, { st1 with
          ignored := rhizome_queue_ignore_manifest st1.ignored m peer 60000 env.now env.randWay
          freed := m :: st1.freed })
      | .fallthrough none => (1, { st1 with freed := m :: st1.freed })
      | .fallthrough (some ci) =>
        if ¬ m.selfSigned ∧ ¬ env.verifies m then
          (-1, { st1 with
            ignored := rhizome_queue_ignore_manifest st1.ignored m peer 60000 env.now env.randWay
            freed := m :: st1.freed })
        else
          let q := r.1.getD qiIdx { active := slotFree, candidates := [], size_threshold := 0 }
          let ins := rhizome_fetch_insert q.candidates ci
          (0, { st1 with
            queues := r.1.set qiIdx
              { q with candidates :=
                  ins.1.set ci { manifest := some m, peer := peer, priority := 100 } },
            freed := ins.2.toList ++ st1.freed,
            schedActivate := true })

/-! ## Transport helpers -/

/-- Modelled from the spec: the data model fixes the bundle id at 32
bytes ("id: 32-byte identifier"), so `RHIZOME_MANIFEST_ID_BYTES = 32`. -/
def RHIZOME_MANIFEST_ID_BYTES : Nat := 32

/-- Modelled from the spec: `rhizome.h` is not among the provided
sources.  The request payload places the version, written at offset
`RHIZOME_BAR_BYTES`, "(big-endian)" at offset 32 immediately after the
32-byte manifest id copied to offset 0, so
`RHIZOME_BAR_BYTES = RHIZOME_MANIFEST_ID_BYTES = 32`. -/
def RHIZOME_BAR_BYTES : Nat := 32

/-- Modelled from the spec: `write_uint64` / `write_uint32` /
`write_uint16` serialise their argument big-endian ("manifest version
(big-endian)" etc.): most significant byte first. -/
def beBytes (w : Nat) (v : Nat) : List Nat :=
  (List.range w).map (fun k => v / 256 ^ (w - 1 - k) % 256)

/-- A 64-bit two's-complement view of an `int64_t` value. -/
def intToU64 (v : Int) : Nat :=
  (v % (2 : Int) ^ 64).toNat

def hexDigit (n : Nat) : Char :=
  if n < 10 then Char.ofNat (48 + n) else Char.ofNat (87 + n)

def hexByte (b : Nat) : String :=
  String.mk [hexDigit (b / 16 % 16), hexDigit (b % 16)]

/-- Lowercase hex of a byte string (`alloca_tohex_bid`). -/
def hexOfBytes (bs : List Nat) : String :=
  String.join (bs.map hexByte)

/-- The HTTP payload request
`GET /rhizome/file/{hash} HTTP/1.0\r\n\r\n`. -/
def httpGetFile (hash : String) : String :=
  "GET /rhizome/file/" ++ hash ++ " HTTP/1.0\r\n\r\n"

/-- Result codes of `rhizome_fetch` (`enum rhizome_start_fetch_result`;
`error` is the C `-1`). -/
inductive FetchResult
  | started
  | imported
  | superseded
  | samebundle
  | olderbundle
  | newerbundle
  | samepayload
  | slotbusy
  | error
deriving DecidableEq

/-- The first scan loop of `rhizome_fetch`: is a fetch of the same bundle
id already active in some slot?  (The C reads `as->manifest` without a
null check; a non-free slot fetching a manifest by its prefix has a null
manifest and would crash — the model treats it as a non-match.) -/
def sameBidScan (m : Manifest) : List FQueue → Option FetchResult
  | [] => none
  | q :: qs =>
    if q.active.state ≠ RHIZOME_FETCH_FREE then
      match q.active.manifest with
      | some am =>
        if am.cryptoSignPublic = m.cryptoSignPublic then
          some (if am.version < m.version then .olderbundle
            else if am.version > m.version then .newerbundle else .samebundle)
        else sameBidScan m qs
      | none => sameBidScan m qs
    else sameBidScan m qs

/-- The second scan loop of `rhizome_fetch`: is a fetch of the same
payload (`strcasecmp` of the file hash; hashes are stored in a uniform
case, modelled as string equality) already active? -/
def samePayloadScan (m : Manifest) : List FQueue → Bool
  | [] => false
  | q :: qs =>
    if q.active.state ≠ RHIZOME_FETCH_FREE then
      match q.active.manifest with
      | some sm => if sm.fileHexHash = m.fileHexHash then true else samePayloadScan m qs
      | none => samePayloadScan m qs
    else samePayloadScan m qs

/-! ## The slot engine: activation, transports, teardown, dispatch

The call cycle `close -> start_next -> rhizome_fetch -> schedule_fetch ->
switch_to_mdp -> requestblocks -> close` is broken by `fuel`; every call
in this block decrements it.  `Option` results propagate both fuel
exhaustion and the modelled `assert` abort in `rhizome_fetch_close`. -/

mutual

/-- `rhizome_fetch_close(slot)`: assert the slot is not free (`none`
models the abort), unregister the descriptor and cancel the alarm, close
the socket and the scratch file, release the manifest, unlink the scratch
path, mark the slot free, and start the next queued fetch eligible for
this slot. -/
def rhizome_fetch_close (fuel : Nat) (env : Env) (st : St) (k : Nat) : Option St :=
  match fuel with
  | 0 => none
  | fuel + 1 =>
    let s := getSlot st k
    if s.state = RHIZOME_FETCH_FREE then none
    else
      let s1 : Slot := { s with
        watched := false, alarmScheduled := false, fd := -1, fileOpen := false }
      let st1 := addFreed (setSlot st k { s1 with manifest := none }) s1.manifest
      let st2 :=
        if s1.filename ≠ "" then
          { setSlot st1 k { getSlot st1 k with filename := "", fileContent := [] } with
            unlinked := s1.filename :: st1.unlinked }
        else st1
      let st3 := setSlot st2 k { getSlot st2 k with state := RHIZOME_FETCH_FREE }
      some (rhizome_start_next_queued_fetch fuel env st3 k)
termination_by structural fuel

/-- `rhizome_start_next_queued_fetch(slot)`: walk the slot's own queue,
then the smaller-threshold queues, trying to activate candidates. -/
def rhizome_start_next_queued_fetch (fuel : Nat) (env : Env) (st : St) (k : Nat) : St :=
  match fuel with
  | 0 => st
  | fuel + 1 => startNextAux fuel env st k k
termination_by structural fuel

/-- The outer loop of `rhizome_start_next_queued_fetch`
(`for (q = slot's queue; q >= rhizome_fetch_queues; --q)`). -/
def startNextAux (fuel : Nat) (env : Env) (st : St) (k : Nat) (qIdx : Nat) : St :=
  match fuel with
  | 0 => st
  | fuel + 1 =>
    let r := walkLoop fuel env st k qIdx 0
    if r.2 then r.1
    else
      match qIdx with
      | 0 => r.1
      | q + 1 => startNextAux fuel env r.1 k q
termination_by structural fuel

/-- The inner loop of `rhizome_start_next_queued_fetch`: at index `i` of
queue `qIdx`, while the candidate holds a manifest, try
`rhizome_fetch(slot, ...)` on it; `SLOTBUSY` stops everything (second
component `true`), `STARTED` nulls the candidate's manifest pointer,
unqueues it and stops everything, `OLDERBUNDLE` leaves the candidate
queued and advances, and every other result unqueues the candidate
(freeing its manifest) and retries the same index of the shifted
queue. -/
def walkLoop (fuel : Nat) (env : Env) (st : St) (k qIdx i : Nat) : St × Bool :=
  match fuel with
  | 0 => (st, true)
  | fuel + 1 =>
    let q := getQ st qIdx
    if i < q.candidates.length then
      match (q.candidates.getD i cEmpty).manifest with
      | none => (st, false)
      | some m =>
        match rhizome_fetch fuel env st k m (q.candidates.getD i cEmpty).peer with
        | none => (st, true)
        | some (.slotbusy, st1) => (st1, true)
        | some (.started, st1) =>
          let q1 := getQ st1 qIdx
          let cs1 := q1.candidates.set i
            { q1.candidates.getD i cEmpty with manifest := none }
          let u := rhizome_fetch_unqueue cs1 i
          (addFreed (setQ st1 qIdx { q1 with candidates := u.1 }) u.2, true)
        | some (.olderbundle, st1) => walkLoop fuel env st1 k qIdx (i + 1)
        | some (_, st1) =>
          let q1 := getQ st1 qIdx
          let u := rhizome_fetch_unqueue q1.candidates i
          walkLoop fuel env (addFreed (setQ st1 qIdx { q1 with candidates := u.1 }) u.2)
            k qIdx i
    else (st, false)
termination_by structural fuel

/-- `rhizome_fetch(slot, m, peerip, peersid)`: the per-slot activation
function.  Quick rejections first (busy slot, nil payload import,
supersession via the store, same bundle already active, missing file
hash, payload already stored, same payload already active); otherwise
prepare the HTTP request and the MDP fields on the slot, attach the
manifest, and `schedule_fetch`. -/
def rhizome_fetch (fuel : Nat) (env : Env) (st : St) (k : Nat) (m : Manifest)
    (peer : Peer) : Option (FetchResult × St) :=
  match fuel with
  | 0 => none
  | fuel + 1 =>
    if (getSlot st k).state ≠ RHIZOME_FETCH_FREE then some (.slotbusy, st)
    else if m.fileLength = 0 then
      if env.importOk then some (.imported, { st with imported := m :: st.imported })
      else some (.error, st)
    else if rhizome_manifest_version_cache_lookup env m ≠ 0 then some (.superseded, st)
    else
      match sameBidScan m st.queues with
      | some r => some (r, st)
      | none =>
        if ¬ m.fileHashedP then some (.error, st)
        else if env.storeHasFile m.fileHexHash then
          if env.addManifestOk then some (.imported, { st with imported := m :: st.imported })
          else some (.error, st)
        else if samePayloadScan m st.queues then some (.samepayload, st)
        else
          let slotA : Slot := { getSlot st k with
            peer := peer
            request := httpGetFile m.fileHexHash
            request_len := (httpGetFile m.fileHexHash).length
            bid := m.cryptoSignPublic
            bidVersion := m.version
            bidP := true }
          if ¬ env.pathOk then some (.error, setSlot st k slotA)
          else
            let slotB : Slot := { slotA with
              filename := "payload." ++ hexOfBytes m.cryptoSignPublic
              manifest := some m }
            match schedule_fetch fuel env (setSlot st k slotB) k with
            | none => none
            | some (rc, st2) =>
              if rc = 0 then some (.started, st2)
              else some (.error, setSlot st2 k { getSlot st2 k with filename := "" })
termination_by structural fuel

/-- `schedule_fetch(slot)`: create the import directory and open the
scratch file with truncation (failure of either returns `-1`); with an
IPv4 peer address and a working socket, start the non-blocking HTTP
connect (state `Connecting`, watch the socket, arm the idle timeout);
otherwise fall back to the MDP transport (the C does not store the open
`FILE*` on the slot on this path). -/
def schedule_fetch (fuel : Nat) (env : Env) (st : St) (k : Nat) : Option (Int × St) :=
  match fuel with
  | 0 => none
  | fuel + 1 =>
    if ¬ env.importDirOk then some (-1, st)
    else if ¬ env.fopenOk then some (-1, st)
    else if (getSlot st k).peer.hasIP ∧ env.httpConnectOk then
      some (0, setSlot st k { getSlot st k with
        fd := 99
        request_ofs := 0
        state := RHIZOME_FETCH_CONNECTING
        fileOpen := true
        fileContent := []
        file_len := -1
        file_ofs := 0
        watched := true
        alarmScheduled := true })
    else
      match rhizome_fetch_switch_to_mdp fuel env
        (setSlot st k { getSlot st k with state := RHIZOME_FETCH_RXFILEMDP }) k with
      | none => none
      | some st2 => some (0, st2)
termination_by structural fuel

/-- `rhizome_fetch_switch_to_mdp(slot)`: unregister the socket, then
begin the MDP flow — for a payload fetch (`bidP`) a 5 s idle timeout, the
receive window at the current file offset, an empty bitmap and 200-byte
blocks, then the first block request; for a manifest fetch a 2 s idle
timeout and the first manifest request. -/
def rhizome_fetch_switch_to_mdp (fuel : Nat) (env : Env) (st : St) (k : Nat) : Option St :=
  match fuel with
  | 0 => none
  | fuel + 1 =>
    let s1 : Slot := { getSlot st k with
      watched := false, alarmScheduled := false, fd := -1, mdpLastRX := env.now }
    if s1.bidP then
      rhizome_fetch_mdp_requestblocks fuel env
        (setSlot st k { s1 with
          mdpIdleTimeout := 5000
          mdpRXWindowStart := s1.file_ofs
          mdpRXBitmap := 0
          mdpRXBlockLength := 200 }) k
    else
      rhizome_fetch_mdp_requestmanifest fuel env
        (setSlot st k { s1 with mdpNextTX := env.now + 100, mdpIdleTimeout := 2000 }) k
termination_by structural fuel

/-- `rhizome_fetch_mdp_requestblocks(slot)`: close the slot on idle
timeout; otherwise emit one block-request frame — from the local
subscriber's rhizome-response port to the peer's rhizome-request port,
`ttl = 1`, ordinary queue — whose payload is the 32-byte bid, the 64-bit
big-endian version, the 64-bit big-endian window start, the 32-bit
big-endian bitmap and the 16-bit big-endian block length
(`RHIZOME_BAR_BYTES+8+8+4+2 = 54` bytes), and re-arm the alarm 133 ms
out. -/
def rhizome_fetch_mdp_requestblocks (fuel : Nat) (env : Env) (st : St) (k : Nat) :
    Option St :=
  match fuel with
  | 0 => none
  | fuel + 1 =>
    let slot := getSlot st k
    if env.now - slot.mdpLastRX > slot.mdpIdleTimeout then
      rhizome_fetch_close fuel env st k
    else
      let s1 : Slot := { slot with mdpNextTX := env.now + 133 }
      let frame : MdpFrame := {
        srcSid := env.mySid
        srcPort := env.portResponse
        dstSid := s1.peer.sid
        dstPort := env.portRequest
        ttl := 1
        qos := OQ_ORDINARY
        payload := s1.bid.take RHIZOME_MANIFEST_ID_BYTES
          ++ beBytes 8 (intToU64 s1.bidVersion)
          ++ beBytes 8 (intToU64 s1.mdpRXWindowStart)
          ++ beBytes 4 (s1.mdpRXBitmap % 2 ^ 32)
          ++ beBytes 2 (s1.mdpRXBlockLength % 2 ^ 16) }
      let stS := setSlot st k { s1 with alarmScheduled := true }
      some { stS with sentFrames := frame :: stS.sentFrames }
termination_by structural fuel

/-- `rhizome_fetch_mdp_requestmanifest(slot)`: close on an invalid
prefix length or idle timeout; otherwise emit the raw prefix as a
manifest request (same addressing as block requests) and re-arm the
alarm 100 ms out. -/
def rhizome_fetch_mdp_requestmanifest (fuel : Nat) (env : Env) (st : St) (k : Nat) :
    Option St :=
  match fuel with
  | 0 => none
  | fuel + 1 =>
    let slot := getSlot st k
    if slot.pfx_length < 1 ∨ slot.pfx_length > 32 then
      rhizome_fetch_close fuel env st k
    else if env.now - slot.mdpLastRX > slot.mdpIdleTimeout then
      rhizome_fetch_close fuel env st k
    else
      let s1 : Slot := { slot with mdpNextTX := env.now + 100 }
      let frame : MdpFrame := {
        srcSid := env.mySid
        srcPort := env.portResponse
        dstSid := s1.peer.sid
        dstPort := env.portRequest
        ttl := 1
        qos := OQ_ORDINARY
        payload := s1.pfx.take s1.pfx_length }
      let stS := setSlot st k { s1 with alarmScheduled := true }
      some { stS with sentFrames := frame :: stS.sentFrames }
termination_by structural fuel

/-- `rhizome_write_content(slot, buffer, bytes)`: clamp the byte count to
the remaining file length; a failed (or empty) `fwrite` closes the slot;
otherwise append to the scratch file and advance `file_ofs`; when the
file is complete, close the scratch file and either hand the bundle to
the importer (payload fetch) or parse the received manifest and re-enter
the dispatcher (manifest fetch), then close the slot; otherwise re-arm
the idle timeout. -/
def rhizome_write_content (fuel : Nat) (env : Env) (st : St) (k : Nat)
    (buffer : List Nat) (count : Int) : Option St :=
  match fuel with
  | 0 => none
  | fuel + 1 =>
    let slot := getSlot st k
    let bytes := if count > slot.file_len - slot.file_ofs
      then slot.file_len - slot.file_ofs else count
    if bytes ≤ 0 ∨ ¬ env.fwriteOk then rhizome_fetch_close fuel env st k
    else
      let s1 : Slot := { slot with
        fileContent := slot.fileContent ++ buffer.take bytes.toNat
        file_ofs := slot.file_ofs + bytes }
      if s1.file_ofs ≥ s1.file_len then
        let s2 : Slot := { s1 with fileOpen := false }
        match s2.manifest with
        | some m =>
          rhizome_fetch_close fuel env
            { setSlot st k s2 with imported := m :: st.imported } k
        | none =>
          match env.readManifest s2.fileContent with
          | none => rhizome_fetch_close fuel env (setSlot st k s2) k
          | some m2 =>
            rhizome_fetch_close fuel env
              (rhizome_suggest_queue_manifest_import env (setSlot st k s2) m2 s2.peer).2 k
      else some (setSlot st k { s1 with alarmScheduled := true })

end

/-- The first-matching-slot loop of `rhizome_received_content`: the first
queue whose active slot has `bidP` set and whose bid agrees with the
datagram's bid prefix on the first 16 bytes. -/
def firstMatch (bp : List Nat) : List FQueue → Option Nat
  | [] => none
  | q :: qs =>
    if q.active.bidP && (q.active.bid.take 16 == bp.take 16) then some 0
    else (firstMatch bp qs).map (· + 1)

/-- The ASCII code of the terminal block kind `'T'`. -/
def tKind : Nat := 84

/-- `rhizome_received_content(bidprefix, version, offset, count, bytes,
type)`: find the first slot with `bidP` set whose bid matches the 16-byte
prefix (the received `version` is not consulted); if the block is
in-order (`offset == file_ofs`), set `file_len` to `offset + count` for a
terminal (`'T'`) block and to `offset + count + 1` otherwise ("lie, and
claim the end of file is yet to come"), write the bytes, and set
`rx_window_start` to `offset + count`; a matching but out-of-order block
is dropped (out-of-order reception is a TODO in the C).  Returns `0` if
some slot matched, `-1` otherwise. -/
def rhizome_received_content (fuel : Nat) (env : Env) (st : St) (bidpfx : List Nat)
    (_version : Int) (offset : Int) (count : Int) (bytes : List Nat) (kind : Nat) :
    Option (Int × St) :=
  match firstMatch bidpfx st.queues with
  | none => some (-1, st)
  | some k =>
    if (getSlot st k).file_ofs = offset then
      let s1 : Slot := { getSlot st k with
        file_len := if kind = tKind then offset + count else offset + count + 1 }
      match rhizome_write_content fuel env (setSlot st k s1) k bytes count with
      | none => none
      | some st2 =>
        some (0, setSlot st2 k { getSlot st2 k with mdpRXWindowStart := offset + count })
    else some (0, st)

/-- The dispatcher tick body: call `rhizome_start_next_queued_fetch` on
the active slots of the listed queues, in list order. -/
def tickOver (fuel : Nat) (env : Env) : List Nat → St → St
  | [], st => st
  | k :: ks, st => tickOver fuel env ks (rhizome_start_next_queued_fetch fuel env st k)

/-- `rhizome_start_next_queued_fetches` (the activation alarm callback):
`for (i = 0; i < NQUEUES; ++i)` — ascending queue index, i.e. from the
smallest-threshold queue to the largest. -/
def rhizome_start_next_queued_fetches (fuel : Nat) (env : Env) (st : St) : St :=
  tickOver fuel env [0, 1, 2, 3, 4] st

/-- Modelled from the spec (for refinement comparison only): the tick
order the specification asserts, "for each slot in order from
largest-threshold queue to smallest". -/
def tick_spec_order (fuel : Nat) (env : Env) (st : St) : St :=
  tickOver fuel env [4, 3, 2, 1, 0] st

/-! ## State-access lemmas -/

def qEmpty : FQueue :=
  { active := slotFree, candidates := [], size_threshold := 0 }

theorem getSlot_setSlot_self (st : St) (k : Nat) (s : Slot) (hk : k < st.queues.length) :
    getSlot (setSlot st k s) k = s := by
  simp only [getSlot, setSlot, setQ, getQ]
  rw [List.getD_eq_getElem?_getD, List.getElem?_set_self (by simpa using hk)]
  rfl

theorem getQ_setSlot_candidates (st : St) (k : Nat) (s : Slot) (j : Nat) :
    (getQ (setSlot st k s) j).candidates = (getQ st j).candidates := by
  simp only [setSlot, setQ, getQ]
  by_cases hjk : k = j
  · subst hjk
    by_cases hk : k < st.queues.length
    · rw [List.getD_eq_getElem?_getD, List.getElem?_set_self (by simpa using hk),
        List.getD_eq_getElem?_getD, List.getElem?_eq_getElem hk]
      rfl
    · rw [List.getD_eq_getElem?_getD, List.getD_eq_getElem?_getD, List.set_eq_of_length_le
        (by omega)]
  · rw [List.getD_eq_getElem?_getD, List.getElem?_set_ne hjk, ← List.getD_eq_getElem?_getD]

theorem getQ_setSlot_ne (st : St) (k : Nat) (s : Slot) (j : Nat) (hjk : j ≠ k) :
    getQ (setSlot st k s) j = getQ st j := by
  simp only [setSlot, setQ, getQ]
  rw [List.getD_eq_getElem?_getD, List.getElem?_set_ne (fun hc => hjk hc.symm),
    ← List.getD_eq_getElem?_getD]

theorem setSlot_freed (st : St) (k : Nat) (s : Slot) : (setSlot st k s).freed = st.freed := rfl

theorem setSlot_imported (st : St) (k : Nat) (s : Slot) :
    (setSlot st k s).imported = st.imported := rfl

theorem setSlot_unlinked (st : St) (k : Nat) (s : Slot) :
    (setSlot st k s).unlinked = st.unlinked := rfl

theorem setSlot_len (st : St) (k : Nat) (s : Slot) :
    (setSlot st k s).queues.length = st.queues.length := by
  simp [setSlot, setQ]

/-! ## Dispatch over empty queues -/

theorem getQ_eq_of_queues_eq {st1 st : St} (h : st1.queues = st.queues) (j : Nat) :
    getQ st1 j = getQ st j := by
  simp only [getQ, h]

theorem getQ_setQ_self (st : St) (k : Nat) (q : FQueue) (hk : k < st.queues.length) :
    getQ (setQ st k q) k = q := by
  simp only [getQ, setQ]
  rw [List.getD_eq_getElem?_getD, List.getElem?_set_self (by simpa using hk)]
  rfl

theorem getQ_setQ_ne (st : St) (k : Nat) (q : FQueue) (j : Nat) (hjk : j ≠ k) :
    getQ (setQ st k q) j = getQ st j := by
  simp only [getQ, setQ]
  rw [List.getD_eq_getElem?_getD, List.getElem?_set_ne (fun hc => hjk hc.symm),
    ← List.getD_eq_getElem?_getD]

/-- A queue suffix of empty candidates stays entirely empty after the
unqueue shifting loop. -/
theorem shiftTail_all_none (c : Candidate) (rest : List Candidate)
    (h : ∀ c2 ∈ rest, c2.manifest = none) :
    ∀ c2 ∈ shiftTail c rest, c2.manifest = none := by
  induction rest generalizing c with
  | nil =>
    intro c2 h2
    simp only [shiftTail, List.mem_singleton] at h2
    subst h2
    rfl
  | cons c3 r ih =>
    intro c2 h2
    have h3 : c3.manifest = none := h c3 (by simp)
    simp only [shiftTail, h3, List.mem_cons] at h2
    rcases h2 with h2 | h2 | h2
    · subst h2
      rfl
    · subst h2
      exact h3
    · exact h _ (by simp [h2])

/-- When every candidate from the walk position on is absent (or the
index is out of range), the walk leaves the state unchanged. -/
theorem walkLoop_state_empty (fuel : Nat) (env : Env) (st : St) (k qIdx i : Nat)
    (h : ∀ c ∈ (getQ st qIdx).candidates.drop i, c.manifest = none) :
    walkLoop fuel env st k qIdx i = (st, true) ∨ walkLoop fuel env st k qIdx i = (st, false) := by
  cases fuel with
  | zero => exact Or.inl (by simp [walkLoop.eq_def])
  | succ fuel =>
    rw [walkLoop.eq_def]
    simp only
    by_cases hi : i < (getQ st qIdx).candidates.length
    · have hmem : (getQ st qIdx).candidates.getD i cEmpty
          ∈ (getQ st qIdx).candidates.drop i := by
        have h0 : ((getQ st qIdx).candidates.drop i).getD 0 cEmpty
            = (getQ st qIdx).candidates.getD i cEmpty := by
          rw [List.getD_eq_getElem?_getD, List.getElem?_drop, Nat.add_zero,
            ← List.getD_eq_getElem?_getD]
        have hlen : 0 < ((getQ st qIdx).candidates.drop i).length := by
          rw [List.length_drop]
          omega
        rw [← h0, List.getD_eq_getElem _ _ hlen]
        exact List.getElem_mem hlen
      have := h _ hmem
      rw [if_pos hi, this]
      exact Or.inr rfl
    · rw [if_neg hi]
      exact Or.inr rfl

/-- `startNextAux` over queues with no queued candidates is the
identity. -/
theorem startNextAux_empty (env : Env) (k : Nat) :
    ∀ (fuel : Nat) (st : St) (qIdx : Nat),
      (∀ j, j ≤ qIdx → ∀ c ∈ (getQ st j).candidates, c.manifest = none) →
      startNextAux fuel env st k qIdx = st := by
  intro fuel
  induction fuel with
  | zero => intro st qIdx h; simp [startNextAux.eq_def]
  | succ fuel ih =>
    intro st qIdx h
    rw [startNextAux.eq_def]
    simp only
    rcases walkLoop_state_empty fuel env st k qIdx 0
      (fun c hc => h qIdx (le_refl _) c (by simpa using hc)) with hw | hw
    · rw [hw]
      simp
    · rw [hw]
      split
      · rfl
      · cases qIdx with
        | zero => rfl
        | succ q => exact ih st q (fun j hj => h j (by omega))

/-- `rhizome_start_next_queued_fetch` over empty queues is the
identity. -/
theorem start_next_empty (fuel : Nat) (env : Env) (st : St) (k : Nat)
    (h : ∀ j, ∀ c ∈ (getQ st j).candidates, c.manifest = none) :
    rhizome_start_next_queued_fetch fuel env st k = st := by
  cases fuel with
  | zero => simp [rhizome_start_next_queued_fetch.eq_def]
  | succ fuel =>
    rw [rhizome_start_next_queued_fetch.eq_def]
    exact startNextAux_empty env k fuel st k (fun j _ => h j)

/-! ## Concrete fixtures (used by witnesses and counterexamples) -/

/-- The static allocation `rhizome_fetch_queues`: thresholds
`10000 / 100000 / 1000000 / 10000000 / unbounded (-1)`, capacities
`5 / 4 / 3 / 2 / 1`, all slots free, all queues empty. -/
def initQueues : List FQueue :=
  [ { active := slotFree, candidates := List.replicate 5 cEmpty, size_threshold := 10000 },
    { active := slotFree, candidates := List.replicate 4 cEmpty, size_threshold := 100000 },
    { active := slotFree, candidates := List.replicate 3 cEmpty, size_threshold := 1000000 },
    { active := slotFree, candidates := List.replicate 2 cEmpty, size_threshold := 10000000 },
    { active := slotFree, candidates := List.replicate 1 cEmpty, size_threshold := -1 } ]

def peerW : Peer := { hasIP := true, ip := 7, sid := [9, 9] }

def mW1 : Manifest :=
  { cryptoSignPublic := [1], idField := true, version := 4, fileLength := 50
    fileHashedP := true, fileHexHash := "a1", selfSigned := true, ttl := 2 }

def mW2 : Manifest :=
  { cryptoSignPublic := [2], idField := true, version := 6, fileLength := 60
    fileHashedP := true, fileHexHash := "b2", selfSigned := true, ttl := 2 }

def csW : List Candidate :=
  [ { manifest := some mW1, peer := peerW, priority := 100 },
    { manifest := some mW2, peer := peerW, priority := 100 },
    cEmpty ]

/-- An environment with a benign default for every collaborator. -/
def envBase : Env :=
  { now := 1000
    storeVersion := fun _ => none
    storeHasFile := fun _ => false
    readManifest := fun _ => none
    verifies := fun _ => true
    importOk := true, addManifestOk := true, importDirOk := true
    fopenOk := true, fwriteOk := true, httpConnectOk := true, pathOk := true
    mySid := [5, 5], portResponse := 18, portRequest := 19
    fetchDelayMs := 500, randWay := 0 }

/-- The all-empty ignore cache (64 bins of 8 zeroed ways). -/
def cache0 : IgnoredCache :=
  { bins := List.replicate IGNORED_BIN_COUNT (List.replicate IGNORED_BIN_SIZE iEmpty) }

/-- The initial engine state: static queues, empty ignore cache, no
effects, no pending activation alarm. -/
def stInit : St :=
  { queues := initQueues, ignored := cache0, freed := [], imported := []
    unlinked := [], sentFrames := [], schedActivate := false }

/-- The initial state with the first slot occupied (connecting). -/
def stBusy : St :=
  setSlot stInit 0 { slotFree with state := RHIZOME_FETCH_CONNECTING }

/-- An environment whose store already holds version 100 of every
bundle. -/
def envSup : Env :=
  { envBase with storeVersion := fun _ => some 100 }

def candA : Candidate :=
  { manifest := some mW1, peer := peerW, priority := 100 }

/-- Initial state with candidate `mW1` queued in queue 0 and `mW2` in
queue 1. -/
def stC2 : St :=
  { stInit with queues :=
      [ { active := slotFree, candidates := candA :: List.replicate 4 cEmpty
          size_threshold := 10000 },
        { active := slotFree
          candidates := { manifest := some mW2, peer := peerW, priority := 100 }
            :: List.replicate 3 cEmpty
          size_threshold := 100000 },
        { active := slotFree, candidates := List.replicate 3 cEmpty
          size_threshold := 1000000 },
        { active := slotFree, candidates := List.replicate 2 cEmpty
          size_threshold := 10000000 },
        { active := slotFree, candidates := List.replicate 1 cEmpty
          size_threshold := -1 } ] }

/-- `stC2` with slot 0 additionally occupied. -/
def stBusyQ : St :=
  setSlot stC2 0 { slotFree with state := RHIZOME_FETCH_CONNECTING }

/-- An older version of bundle `mW1`. -/
def mOld : Manifest :=
  { mW1 with version := 1 }

/-- `stC2` with slot 1 already fetching the older version of the bundle
that queue 0 advertises. -/
def stOlder : St :=
  setSlot stC2 1 { slotFree with state := RHIZOME_FETCH_RXFILE, manifest := some mOld }

/-- The state `rhizome_fetch` produces when started on `stC2`. -/
def stStarted1 : St :=
  ((rhizome_fetch 17 envBase stC2 0 mW1 peerW).getD (.error, stInit)).2

/-! ## Claim C1 — queue routing -/

/-- **C1.**  For every payload size, `rhizome_find_queue` returns the
first (lowest-threshold) queue whose `size_threshold` is strictly greater
than the size, or the final unbounded queue (index 4); with the standard
thresholds `(10000, 100000, 1000000, 10000000, unbounded)` payloads of
lengths 9999, 10000, 100000 and 10000001 land in queues 0, 1, 2 and 4,
and for each bounded threshold `t` a payload of `t - 1` lands in that
queue while a payload of `t` lands in the next queue up. -/
theorem c1_find_queue_routing (q0 q1 q2 q3 q4 : FQueue)
    (h0 : q0.size_threshold = 10000) (h1 : q1.size_threshold = 100000)
    (h2 : q2.size_threshold = 1000000) (h3 : q3.size_threshold = 10000000)
    (h4 : q4.size_threshold = -1) :
    (∀ size : Int, rhizome_find_queue [q0, q1, q2, q3, q4] size
        = some (if size < 10000 then 0 else if size < 100000 then 1
            else if size < 1000000 then 2 else if size < 10000000 then 3 else 4))
      ∧ rhizome_find_queue [q0, q1, q2, q3, q4] 9999 = some 0
      ∧ rhizome_find_queue [q0, q1, q2, q3, q4] 10000 = some 1
      ∧ rhizome_find_queue [q0, q1, q2, q3, q4] 100000 = some 2
      ∧ rhizome_find_queue [q0, q1, q2, q3, q4] 10000001 = some 4
      ∧ rhizome_find_queue [q0, q1, q2, q3, q4] (100000 - 1) = some 1
      ∧ rhizome_find_queue [q0, q1, q2, q3, q4] (1000000 - 1) = some 2
      ∧ rhizome_find_queue [q0, q1, q2, q3, q4] 1000000 = some 3
      ∧ rhizome_find_queue [q0, q1, q2, q3, q4] (10000000 - 1) = some 3
      ∧ rhizome_find_queue [q0, q1, q2, q3, q4] 10000000 = some 4 := by
  have hgen : ∀ size : Int, rhizome_find_queue [q0, q1, q2, q3, q4] size
      = some (if size < 10000 then 0 else if size < 100000 then 1
          else if size < 1000000 then 2 else if size < 10000000 then 3 else 4) := by
    intro size
    simp only [rhizome_find_queue, findQLoop, h0, h1, h2, h3, h4]
    split_ifs <;> first | rfl | omega
  exact ⟨hgen, (hgen 9999).trans (by norm_num), (hgen 10000).trans (by norm_num),
    (hgen 100000).trans (by norm_num), (hgen 10000001).trans (by norm_num),
    (hgen (100000 - 1)).trans (by norm_num), (hgen (1000000 - 1)).trans (by norm_num),
    (hgen 1000000).trans (by norm_num), (hgen (10000000 - 1)).trans (by norm_num),
    (hgen 10000000).trans (by norm_num)⟩

/-- Witness for C1 at the concrete static queue allocation. -/
theorem c1_find_queue_routing_witness :
    rhizome_find_queue initQueues 9999 = some 0
      ∧ rhizome_find_queue initQueues 10000 = some 1
      ∧ rhizome_find_queue initQueues 100000 = some 2
      ∧ rhizome_find_queue initQueues 10000001 = some 4 := by
  have h := c1_find_queue_routing
    { active := slotFree, candidates := List.replicate 5 cEmpty, size_threshold := 10000 }
    { active := slotFree, candidates := List.replicate 4 cEmpty, size_threshold := 100000 }
    { active := slotFree, candidates := List.replicate 3 cEmpty, size_threshold := 1000000 }
    { active := slotFree, candidates := List.replicate 2 cEmpty, size_threshold := 10000000 }
    { active := slotFree, candidates := List.replicate 1 cEmpty, size_threshold := -1 }
    rfl rfl rfl rfl rfl
  exact ⟨h.2.1, h.2.2.1, h.2.2.2.1, h.2.2.2.2.1⟩

/-! ## Claim C3 — insert / unqueue and the contiguity invariant -/

/-- **C3.**  `rhizome_fetch_insert(q, i)` shifts candidates `[i..end-1]`
right by one, discarding the tail element and freeing its manifest
exactly when the queue is full (the freed manifest is the old tail
element's manifest, which is `none` when the queue is not full);
`rhizome_fetch_unqueue(q, i)` frees the manifest at position `i` and
shifts all following candidates left by one leaving the tail empty; and
both operations preserve the contiguous-used-prefix invariant (for
insert, once the caller has installed the new candidate in the hole at
`i`, as `rhizome_suggest_queue_manifest_import` does).  Hypotheses `i <
length` and `i = 0 ∨ queue[i-1]` occupied are the C function's own
asserts. -/
theorem c3_insert_unqueue_contiguity :
    (∀ (cs : List Candidate) (i : Nat) (m : Manifest),
        contigProp (mques cs) → i < cs.length →
        (i = 0 ∨ (mques cs).getD (i - 1) none ≠ none) →
        mques (rhizome_fetch_insert cs i).1
            = (mques cs).take i ++ none :: ((mques cs).drop i).dropLast
          ∧ (rhizome_fetch_insert cs i).2 = (mques cs).getD (cs.length - 1) none
          ∧ contigProp ((mques (rhizome_fetch_insert cs i).1).set i (some m)))
    ∧ (∀ (cs : List Candidate) (i : Nat),
        contigProp (mques cs) → i < cs.length →
        mques (rhizome_fetch_unqueue cs i).1
            = (mques cs).take i ++ (mques cs).drop (i + 1) ++ [none]
          ∧ (rhizome_fetch_unqueue cs i).2 = (mques cs).getD i none
          ∧ contigProp (mques (rhizome_fetch_unqueue cs i).1)) :=
  ⟨fun cs i m h hi ha =>
      ⟨(insert_spec cs i h hi ha).1, (insert_spec cs i h hi ha).2,
        insert_install_contig cs i m h hi ha⟩,
    fun cs i h hi => unqueue_spec cs i h hi⟩

/-- Witness for C3 at a concrete queue of capacity 3 holding two
candidates: insert at 1, unqueue at 0. -/
theorem c3_insert_unqueue_contiguity_witness :
    (contigProp (mques csW) ∧ 1 < csW.length
        ∧ ((1 : Nat) = 0 ∨ (mques csW).getD (1 - 1) none ≠ none))
      ∧ mques (rhizome_fetch_insert csW 1).1
          = (mques csW).take 1 ++ none :: ((mques csW).drop 1).dropLast
      ∧ contigProp ((mques (rhizome_fetch_insert csW 1).1).set 1 (some mW2))
      ∧ mques (rhizome_fetch_unqueue csW 0).1
          = (mques csW).take 0 ++ (mques csW).drop 1 ++ [none]
      ∧ contigProp (mques (rhizome_fetch_unqueue csW 0).1) :=
  ⟨⟨by decide, by decide, by decide⟩,
    (c3_insert_unqueue_contiguity.1 csW 1 mW2 (by decide) (by decide) (by decide)).1,
    (c3_insert_unqueue_contiguity.1 csW 1 mW2 (by decide) (by decide) (by decide)).2.2,
    (c3_insert_unqueue_contiguity.2 csW 0 (by decide) (by decide)).1,
    (c3_insert_unqueue_contiguity.2 csW 0 (by decide) (by decide)).2.2⟩

/-! ## Claim C4 — the version lookup -/

/-- **C4 counterexample.**  The claim says the finer distinction
`AlreadyHaveNewer` is emitted when the stored version is strictly newer.
In the live code the strictly-newer branch that returns the distinct code
`-2` sits after an unconditional `return 0` (dead code): with a store
holding version 10, a manifest at version 5 (strictly older) yields
exactly the same result `-1` (`AlreadyHaveEqualOrNewer`) as a manifest at
version 10 (equal) — no finer distinction is emitted. -/
theorem c4_counterexample :
    rhizome_manifest_version_cache_lookup
        { envBase with storeVersion := fun i => if i = [1] then some 10 else none }
        { mW1 with version := 5 } = -1
      ∧ rhizome_manifest_version_cache_lookup
        { envBase with storeVersion := fun i => if i = [1] then some 10 else none }
        { mW1 with version := 10 } = -1
      ∧ ((-1 : Int) ≠ -2) := by
  refine ⟨by rfl, by rfl, by decide⟩

/-- **C4 (amended).**  `rhizome_manifest_version_cache_lookup`'s result is
determined solely by the backing store: it fails (returns `-1`) when the
manifest lacks an id field; it returns `-1` (`AlreadyHaveEqualOrNewer`)
whenever the store holds a version greater than **or equal to** the
manifest's version — with no finer `AlreadyHaveNewer` code (`-2`) for the
strictly-newer case, that branch being dead code — and returns `0`
(`FetchWorth`) otherwise. -/
theorem c4_lookup_store_only (env : Env) (m : Manifest) :
    (rhizome_manifest_version_cache_lookup env m = -1
        ∨ rhizome_manifest_version_cache_lookup env m = 0)
      ∧ rhizome_manifest_version_cache_lookup env m ≠ -2
      ∧ (rhizome_manifest_version_cache_lookup env m = 0
          ↔ m.idField = true
            ∧ (env.storeVersion m.cryptoSignPublic).getD (-1) < m.version)
      ∧ (m.idField = false → rhizome_manifest_version_cache_lookup env m = -1) := by
  unfold rhizome_manifest_version_cache_lookup
  rcases h : m.idField with _ | _
  · simp [h]
  · by_cases hv : (env.storeVersion m.cryptoSignPublic).getD (-1) ≥ m.version
    · simp [h, hv]
    · simp [h, hv]
      omega

/-- Witness for C4's amended theorem at a concrete store and manifest. -/
theorem c4_lookup_store_only_witness :
    rhizome_manifest_version_cache_lookup envBase { mW1 with idField := false } = -1 :=
  (c4_lookup_store_only envBase { mW1 with idField := false }).2.2.2 rfl

/-! ## Claim C9 — the ignore cache round trip -/

/-- **C9.**  After `remember(id, peer, ttl)` executed at time `t`
(`rhizome_queue_ignore_manifest`), and with no intervening eviction
(`check` runs on the state `remember` produced), `check(id, now)`
(`rhizome_ignore_manifest_check`) returns true for every `now` with
`t ≤ now < t + ttl` and false for every `now ≥ t + ttl`. -/
theorem c9_remember_check_roundtrip (c : IgnoredCache) (m : Manifest) (peer : Peer)
    (ttl t now : Int) (rand : Nat)
    (hbins : c.bins.length = IGNORED_BIN_COUNT)
    (hways : ∀ b ∈ c.bins, b.length = IGNORED_BIN_SIZE) :
    (t ≤ now → now < t + ttl →
        rhizome_ignore_manifest_check
          (rhizome_queue_ignore_manifest c m peer ttl t rand) m now = true)
      ∧ (t + ttl ≤ now →
        rhizome_ignore_manifest_check
          (rhizome_queue_ignore_manifest c m peer ttl t rand) m now = false) := by
  have hbinlt : ignoredBin m < c.bins.length := by
    rw [hbins]
    have hb : m.cryptoSignPublic.headD 0 % 256 < 256 := Nat.mod_lt _ (by norm_num)
    have := (Nat.div_lt_iff_lt_mul (k := 4) (by norm_num)).2
      (show m.cryptoSignPublic.headD 0 % 256 < IGNORED_BIN_COUNT * 4 by
        simpa [IGNORED_BIN_COUNT] using hb)
    simpa [ignoredBin] using this
  have hlen8 : (c.bins.getD (ignoredBin m) []).length = IGNORED_BIN_SIZE := by
    rw [List.getD_eq_getElem (c.bins) [] hbinlt]
    exact hways _ (List.getElem_mem hbinlt)
  have hkey : rhizome_ignore_manifest_check
      (rhizome_queue_ignore_manifest c m peer ttl t rand) m now
      = decide (t + ttl > now) := by
    unfold rhizome_ignore_manifest_check rhizome_queue_ignore_manifest
    rw [getD_set_self _ _ _ _ hbinlt]
    rcases hf : ignoreFind m.cryptoSignPublic (c.bins.getD (ignoredBin m) []) with _ | s
    · simp only [hf]
      have hslot : rand % IGNORED_BIN_SIZE < (c.bins.getD (ignoredBin m) []).length := by
        rw [hlen8]
        exact Nat.mod_lt rand (by norm_num [IGNORED_BIN_SIZE])
      exact ignoreScan_set m.cryptoSignPublic now
        { bid := m.cryptoSignPublic, peer := peer, timeout := t + ttl } rfl
        (c.bins.getD (ignoredBin m) []) (rand % IGNORED_BIN_SIZE) hslot
        (fun j hj => ignoreFind_none m.cryptoSignPublic _ hf j (lt_trans hj hslot))
    · simp only [hf]
      obtain ⟨hs1, hs2⟩ := ignoreFind_some m.cryptoSignPublic _ s hf
      exact ignoreScan_set m.cryptoSignPublic now
        { bid := m.cryptoSignPublic, peer := peer, timeout := t + ttl } rfl
        (c.bins.getD (ignoredBin m) []) s hs1 hs2
  refine ⟨fun h1 h2 => ?_, fun h1 => ?_⟩
  · rw [hkey]
    simpa using by omega
  · rw [hkey]
    simpa using by omega

/-- Witness for C9: an empty cache, `remember` at `t = 100` with
`ttl = 50`, checked at `now = 120` (inside) and `now = 160` (outside). -/
theorem c9_remember_check_roundtrip_witness :
    rhizome_ignore_manifest_check
        (rhizome_queue_ignore_manifest cache0 mW1 peerW 50 100 3) mW1 120 = true
      ∧ rhizome_ignore_manifest_check
        (rhizome_queue_ignore_manifest cache0 mW1 peerW 50 100 3) mW1 160 = false :=
  ⟨(c9_remember_check_roundtrip cache0 mW1 peerW 50 100 120 3
      (by decide) (by decide)).1 (by decide) (by decide),
    (c9_remember_check_roundtrip cache0 mW1 peerW 50 100 160 3
      (by decide) (by decide)).2 (by decide)⟩

/-! ## Claim C10 — non-started results of `rhizome_fetch` leave everything alone -/

/-- Every result of `rhizome_fetch` other than `started` and `error` is
produced before any slot field is written: the returned state can differ
from the input only in the `imported` log (the immediate-import cases
hand the manifest to the importer but touch no slot or queue). -/
theorem rhizome_fetch_preserves (fuel : Nat) (env : Env) (st : St) (k : Nat)
    (m : Manifest) (peer : Peer) (r : FetchResult) (st' : St)
    (h : rhizome_fetch fuel env st k m peer = some (r, st'))
    (hs : r ≠ .started) (he : r ≠ .error) :
    st'.queues = st.queues ∧ st'.freed = st.freed ∧ st'.unlinked = st.unlinked := by
  cases fuel with
  | zero => simp [rhizome_fetch.eq_def] at h
  | succ fuel =>
    rw [rhizome_fetch.eq_def] at h
    simp only at h
    repeat' split at h
    all_goals try simp only [Option.some.injEq, Prod.mk.injEq] at h
    all_goals try (obtain ⟨h1, h2⟩ := h; subst h2)
    all_goals simp_all

/-- **C10.**  Whenever `rhizome_fetch` returns any result other than
`STARTED` or the error result `-1` — that is, `SLOTBUSY`, `IMPORTED`,
`SUPERSEDED`, `SAMEBUNDLE`, `OLDERBUNDLE`, `NEWERBUNDLE` or
`SAMEPAYLOAD` — the fetch slot is left entirely unchanged (in particular
a free slot remains free and no slot field is written: the whole queue
list, which holds every slot, is unchanged), and the manifest is neither
freed nor stored in any slot or queue, so ownership remains with the
caller. -/
theorem c10_fetch_nonstart_preserves (fuel : Nat) (env : Env) (st : St) (k : Nat)
    (m : Manifest) (peer : Peer) (r : FetchResult) (st' : St)
    (h : rhizome_fetch fuel env st k m peer = some (r, st'))
    (hr : r = .slotbusy ∨ r = .imported ∨ r = .superseded ∨ r = .samebundle
      ∨ r = .olderbundle ∨ r = .newerbundle ∨ r = .samepayload) :
    st'.queues = st.queues ∧ getSlot st' k = getSlot st k ∧ st'.freed = st.freed := by
  have hp := rhizome_fetch_preserves fuel env st k m peer r st' h
    (by rcases hr with rfl | rfl | rfl | rfl | rfl | rfl | rfl <;> simp)
    (by rcases hr with rfl | rfl | rfl | rfl | rfl | rfl | rfl <;> simp)
  refine ⟨hp.1, ?_, hp.2.1⟩
  simp only [getSlot, getQ, hp.1]

/-- Witness for C10: a store that already has version 100 makes
`rhizome_fetch` return `SUPERSEDED` with the state unchanged. -/
theorem c10_fetch_nonstart_preserves_witness :
    rhizome_fetch 5 envSup stInit 0 mW1 peerW = some (.superseded, stInit)
      ∧ stInit.queues = stInit.queues ∧ getSlot stInit 0 = getSlot stInit 0
      ∧ stInit.freed = stInit.freed :=
  ⟨by decide,
    c10_fetch_nonstart_preserves 5 envSup stInit 0 mW1 peerW .superseded stInit
      (by decide) (Or.inr (Or.inr (Or.inl rfl)))⟩

/-! ## Claim C2 — dispatcher tick order and per-result actions -/

/-- **C2 counterexample.**  The claim says the activation tick calls
`start_next` on every slot in order from the largest-threshold queue to
the smallest.  The C loop is `for (i = 0; i < NQUEUES; ++i)` over queues
ordered by ascending threshold, so the smallest-threshold slot is served
first.  On a state with one candidate in queue 0 and one in queue 1, the
code's ascending order assigns the queue-0 candidate to slot 0, while the
claimed descending order would leave slot 0 free (slots 3 and 4 take the
candidates): the two dispatch orders produce different states. -/
theorem c2_counterexample :
    rhizome_start_next_queued_fetches 20 envBase stC2 ≠ tick_spec_order 20 envBase stC2
      ∧ (getSlot (rhizome_start_next_queued_fetches 20 envBase stC2) 0).manifest = some mW1
      ∧ (getSlot (tick_spec_order 20 envBase stC2) 0).manifest = none :=
  ⟨by decide, by decide, by decide⟩

/-- **C2 (amended).**  On each activation tick the dispatcher calls
`start_next` on every slot in order from the **smallest**-threshold queue
to the largest (first conjunct: the tick is the ascending fold); each
`start_next` walks the slot's own queue and then smaller-threshold
queues, and for each candidate attempted: `Started` unqueues the
candidate (its manifest pointer having been nulled first, so nothing is
freed) and ends work on this slot; `SlotBusy` stops scanning this slot;
`OlderBundle` leaves the candidate queued and continues; and every other
result (`Imported`, `Superseded`, `SameBundle`, `SamePayload`,
`NewerBundle`) unqueues the candidate, freeing its manifest, and
continues scanning. -/
theorem c2_dispatch_actions (f : Nat) (env : Env) (st : St) (k : Nat)
    (c : Candidate) (rest : List Candidate) (m : Manifest)
    (hq : (getQ st k).candidates = c :: rest) (hm : c.manifest = some m)
    (hk : k < st.queues.length) :
    (∀ fuel st0, rhizome_start_next_queued_fetches fuel env st0
        = tickOver fuel env [0, 1, 2, 3, 4] st0)
      ∧ (∀ st1, rhizome_fetch f env st k m c.peer = some (.slotbusy, st1) →
          rhizome_start_next_queued_fetch (f + 3) env st k = st1)
      ∧ (∀ st1 c1 rest1, rhizome_fetch f env st k m c.peer = some (.started, st1) →
          (getQ st1 k).candidates = c1 :: rest1 →
          rhizome_start_next_queued_fetch (f + 3) env st k
            = setQ st1 k { getQ st1 k with
                candidates := shiftTail { c1 with manifest := none } rest1 })
      ∧ (∀ st1, rhizome_fetch f env st k m c.peer = some (.olderbundle, st1) →
          (∀ c2 ∈ rest, c2.manifest = none) →
          (∀ j, j < k → ∀ c2 ∈ (getQ st j).candidates, c2.manifest = none) →
          rhizome_start_next_queued_fetch (f + 3) env st k = st1
            ∧ (getQ st1 k).candidates = c :: rest)
      ∧ (∀ st1 r, rhizome_fetch f env st k m c.peer = some (r, st1) →
          (r = .imported ∨ r = .superseded ∨ r = .samebundle ∨ r = .samepayload
            ∨ r = .newerbundle) →
          (∀ c2 ∈ rest, c2.manifest = none) →
          (∀ j, j < k → ∀ c2 ∈ (getQ st j).candidates, c2.manifest = none) →
          rhizome_start_next_queued_fetch (f + 3) env st k
            = { setQ st1 k { getQ st1 k with candidates := shiftTail c rest } with
                freed := m :: st1.freed }) := by
  have hunfold : rhizome_start_next_queued_fetch (f + 3) env st k
      = if (walkLoop (f + 1) env st k k 0).2 then (walkLoop (f + 1) env st k k 0).1
        else match k with
          | 0 => (walkLoop (f + 1) env st k k 0).1
          | q + 1 => startNextAux (f + 1) env (walkLoop (f + 1) env st k k 0).1 k q := by
    cases k <;> rfl
  refine ⟨fun _ _ => rfl, ?_, ?_, ?_, ?_⟩
  · -- SlotBusy
    intro st1 h
    have hw : walkLoop (f + 1) env st k k 0 = (st1, true) := by
      rw [walkLoop.eq_def]
      simp only [hq, hm, List.length_cons, List.getD_cons_zero, Nat.zero_lt_succ,
        if_true, h]
    rw [hunfold, hw]
    rfl
  · -- Started
    intro st1 c1 rest1 h hq1
    have hw : walkLoop (f + 1) env st k k 0
        = (setQ st1 k { getQ st1 k with
            candidates := shiftTail { c1 with manifest := none } rest1 }, true) := by
      rw [walkLoop.eq_def]
      simp only [hq, hm, List.length_cons, List.getD_cons_zero, Nat.zero_lt_succ,
        if_true, h, hq1, List.set_cons_zero, rhizome_fetch_unqueue, List.drop_zero,
        List.take_zero, List.nil_append, addFreed]
    rw [hunfold, hw]
    rfl
  · -- OlderBundle
    intro st1 h hrest hbelow
    have hpres := rhizome_fetch_preserves f env st k m c.peer .olderbundle st1 h
      (by simp) (by simp)
    have hq1 : (getQ st1 k).candidates = c :: rest := by
      rw [getQ_eq_of_queues_eq hpres.1, hq]
    refine ⟨?_, hq1⟩
    have hw : walkLoop (f + 1) env st k k 0 = walkLoop f env st1 k k 1 := by
      rw [walkLoop.eq_def]
      simp only [hq, hm, List.length_cons, List.getD_cons_zero, Nat.zero_lt_succ,
        if_true, h]
    rcases walkLoop_state_empty f env st1 k k 1
      (by
        rw [hq1]
        intro c2 hc2
        exact hrest c2 (by simpa using hc2)) with hw2 | hw2
    · rw [hunfold, hw, hw2]
      rfl
    · rw [hunfold, hw, hw2]
      cases k with
      | zero => rfl
      | succ q =>
        show startNextAux (f + 1) env st1 (q + 1) q = st1
        exact startNextAux_empty env (q + 1) (f + 1) st1 q
          (fun j hj c2 hc2 => hbelow j (by omega) c2
            (by rwa [getQ_eq_of_queues_eq hpres.1 j] at hc2))
  · -- Imported / Superseded / SameBundle / SamePayload / NewerBundle
    intro st1 r h hr hrest hbelow
    have hpres := rhizome_fetch_preserves f env st k m c.peer r st1 h
      (by rcases hr with rfl | rfl | rfl | rfl | rfl <;> simp)
      (by rcases hr with rfl | rfl | rfl | rfl | rfl <;> simp)
    have hq1 : (getQ st1 k).candidates = c :: rest := by
      rw [getQ_eq_of_queues_eq hpres.1, hq]
    have hk1 : k < st1.queues.length := by rw [hpres.1]; exact hk
    have hu : rhizome_fetch_unqueue (getQ st1 k).candidates 0
        = (shiftTail c rest, some m) := by
      rw [hq1]
      simp only [rhizome_fetch_unqueue, List.drop_zero, List.take_zero,
        List.nil_append, hm]
    have hw : walkLoop (f + 1) env st k k 0
        = walkLoop f env
            { setQ st1 k { getQ st1 k with candidates := shiftTail c rest } with
              freed := m :: st1.freed } k k 0 := by
      rw [walkLoop.eq_def]
      rcases hr with rfl | rfl | rfl | rfl | rfl <;>
        simp only [hq, hm, List.length_cons, List.getD_cons_zero, Nat.zero_lt_succ,
          if_true, h, hu, addFreed, setQ]
    set stF : St :=
      { setQ st1 k { getQ st1 k with candidates := shiftTail c rest } with
        freed := m :: st1.freed } with hstF
    have hqF : (getQ stF k).candidates = shiftTail c rest := by
      have : getQ stF k = getQ (setQ st1 k { getQ st1 k with
          candidates := shiftTail c rest }) k := rfl
      rw [this, getQ_setQ_self st1 k _ hk1]
    rcases walkLoop_state_empty f env stF k k 0
      (by
        rw [hqF, List.drop_zero]
        exact shiftTail_all_none c rest hrest) with hw2 | hw2
    · rw [hunfold, hw, hw2]
      rfl
    · rw [hunfold, hw, hw2]
      cases k with
      | zero => rfl
      | succ q =>
        show startNextAux (f + 1) env stF (q + 1) q = stF
        refine startNextAux_empty env (q + 1) (f + 1) stF q (fun j hj c2 hc2 => ?_)
        have hne : j ≠ q + 1 := by omega
        have : getQ stF j = getQ st1 j := by
          have h1 : getQ stF j = getQ (setQ st1 (q + 1) { getQ st1 (q + 1) with
              candidates := shiftTail c rest }) j := rfl
          rw [h1, getQ_setQ_ne st1 (q + 1) _ j hne]
        rw [this, getQ_eq_of_queues_eq hpres.1 j] at hc2
        exact hbelow j (by omega) c2 hc2

/-- Witness for C2's amended theorem: each dispatch action exercised at a
concrete state — a busy slot, a started fetch, an older bundle already in
flight, and a superseded candidate. -/
theorem c2_dispatch_actions_witness :
    rhizome_start_next_queued_fetch 20 envBase stBusyQ 0 = stBusyQ
      ∧ rhizome_start_next_queued_fetch 20 envBase stC2 0
          = setQ stStarted1 0 { getQ stStarted1 0 with
              candidates := shiftTail { candA with manifest := none }
                (List.replicate 4 cEmpty) }
      ∧ rhizome_start_next_queued_fetch 20 envBase stOlder 0 = stOlder
      ∧ (getQ stOlder 0).candidates = candA :: List.replicate 4 cEmpty
      ∧ rhizome_start_next_queued_fetch 20 envSup stC2 0
          = { setQ stC2 0 { getQ stC2 0 with
                candidates := shiftTail candA (List.replicate 4 cEmpty) } with
              freed := mW1 :: stC2.freed } :=
  have hbusy := (c2_dispatch_actions 17 envBase stBusyQ 0 candA (List.replicate 4 cEmpty)
    mW1 (by decide) (by decide) (by decide)).2.1 stBusyQ (by decide)
  have hstart := (c2_dispatch_actions 17 envBase stC2 0 candA (List.replicate 4 cEmpty)
    mW1 (by decide) (by decide) (by decide)).2.2.1 stStarted1 candA
    (List.replicate 4 cEmpty) (by decide) (by decide)
  have holder := (c2_dispatch_actions 17 envBase stOlder 0 candA (List.replicate 4 cEmpty)
    mW1 (by decide) (by decide) (by decide)).2.2.2.1 stOlder (by decide)
    (by decide) (by intro j hj; omega)
  have hsup := (c2_dispatch_actions 17 envSup stC2 0 candA (List.replicate 4 cEmpty)
    mW1 (by decide) (by decide) (by decide)).2.2.2.2 stC2 .superseded (by decide)
    (Or.inr (Or.inl rfl)) (by decide) (by intro j hj; omega)
  ⟨hbusy, hstart, holder.1, holder.2, hsup⟩

/-! ## Claim C5 — slot teardown (`rhizome_fetch_close`) -/

/-- The slot a full `rhizome_fetch_close` leaves behind: descriptor
unregistered (`watched = false`), alarm cancelled
(`alarmScheduled = false`), socket and scratch file closed (`fd = -1`,
`fileOpen = false`), manifest released, scratch path unlinked, state
`Free`. -/
def closedSlot (s : Slot) : Slot :=
  { s with
    watched := false
    alarmScheduled := false
    fd := -1
    fileOpen := false
    manifest := none
    filename := ""
    fileContent := []
    state := RHIZOME_FETCH_FREE }

/-- The state a full `rhizome_fetch_close` on a non-free slot with a
scratch file produces (before `rhizome_start_next_queued_fetch`, which is
the identity when no candidates are queued): the closed slot installed,
the scratch path logged as unlinked, the manifest logged as freed. -/
def closedState (st : St) (k : Nat) : St :=
  { setSlot st k (closedSlot (getSlot st k)) with
    unlinked := (getSlot st k).filename :: st.unlinked
    freed := (getSlot st k).manifest.toList ++ st.freed }

theorem addFreed_queues (st : St) (m : Option Manifest) :
    (addFreed st m).queues = st.queues := by
  cases m <;> rfl

theorem closedState_candidates (st : St) (k : Nat) (j : Nat) :
    (getQ (closedState st k) j).candidates = (getQ st j).candidates := by
  have h : getQ (closedState st k) j = getQ (setSlot st k (closedSlot (getSlot st k))) j :=
    rfl
  rw [h, getQ_setSlot_candidates]

theorem getQ_candidates_beyond (st : St) (j : Nat) (hj : st.queues.length ≤ j) :
    (getQ st j).candidates = [] := by
  simp only [getQ]
  rw [List.getD_eq_default _ _ hj]

theorem start_next_eq_of_empty (fuel : Nat) (env : Env) {X Y : St} (k : Nat)
    (hXY : X = Y) (h : ∀ j, ∀ c ∈ (getQ Y j).candidates, c.manifest = none) :
    rhizome_start_next_queued_fetch fuel env X k = Y := by
  subst hXY
  exact start_next_empty fuel env X k h

/-- `rhizome_fetch_close` on a non-free slot with a scratch file and no
queued candidates: the result is exactly `closedState`. -/
theorem close_spec (fuel : Nat) (env : Env) (st : St) (k : Nat)
    (hk : k < st.queues.length)
    (hs : (getSlot st k).state ≠ RHIZOME_FETCH_FREE)
    (hfn : (getSlot st k).filename ≠ "")
    (hempty : ∀ j, j < st.queues.length → ∀ c ∈ (getQ st j).candidates, c.manifest = none) :
    rhizome_fetch_close (fuel + 1) env st k = some (closedState st k) := by
  rw [rhizome_fetch_close.eq_def]
  simp only [if_neg hs, if_pos hfn]
  refine congrArg some (start_next_eq_of_empty fuel env k ?_ ?_)
  · rcases hm : (getSlot st k).manifest with _ | m <;>
    · obtain ⟨qs, ign, fr, imp, unl, sf, sa⟩ := st
      simp only [getSlot, getQ, setSlot, setQ] at hk hm ⊢
      simp only [closedState, closedSlot, getSlot, getQ, setSlot, setQ, addFreed, hm,
        Option.toList]
      simp only [List.getD_eq_getElem?_getD, List.getElem?_set_self
        (by simpa using hk), Option.getD_some, List.set_set, hm,
        List.nil_append, List.singleton_append]
  · intro j c hc
    by_cases hj : j < st.queues.length
    · rw [closedState_candidates] at hc
      exact hempty j hj c hc
    · rw [closedState_candidates, getQ_candidates_beyond st j (by omega)] at hc
      cases hc

/-- `stInit` with slot 0 mid-transfer: receiving a payload, manifest
attached, scratch file open with bytes written, watched and scheduled. -/
def stC5 : St :=
  setSlot stInit 0 { slotFree with
    state := RHIZOME_FETCH_RXFILE, manifest := some mW1
    filename := "payload.aa", fileOpen := true, fileContent := [1, 2]
    watched := true, alarmScheduled := true, fd := 9 }

/-- **C5 counterexample.**  The claim says closing is idempotent: closing
a slot that is already `Free` is a harmless no-op.  The C function opens
with `assert(slot->state != RHIZOME_FETCH_FREE)` (rhizome_fetch.c:980),
so closing a free slot aborts the process — modelled as the `none`
result — rather than returning the state unchanged (`some stInit`). -/
theorem c5_counterexample :
    (getSlot stInit 0).state = RHIZOME_FETCH_FREE
      ∧ rhizome_fetch_close 5 envBase stInit 0 = none
      ∧ rhizome_fetch_close 5 envBase stInit 0 ≠ some stInit :=
  ⟨by decide, by decide, by decide⟩

/-- **C5 (amended).**  Closing a fetch slot that is **not** free
(`rhizome_fetch_close`) unregisters its descriptor (`watched := false`),
cancels its alarm (`alarmScheduled := false`), closes the socket and the
scratch file (`fd := -1`, `fileOpen := false`), unlinks the scratch path
(logged in `unlinked`, `filename := ""`), releases the manifest (logged
in `freed`), and sets the slot state to `Free` — so no scratch file
created by a slot that did not complete survives the close.  Closing is
**not** idempotent: on a slot that is already `Free` the function's
opening assert aborts (the `none` result).  Stated for a slot with a
scratch path and no queued candidates (so the trailing
`rhizome_start_next_queued_fetch` starts nothing). -/
theorem c5_close_teardown (fuel : Nat) (env : Env) (st : St) (k : Nat)
    (hk : k < st.queues.length)
    (hfn : (getSlot st k).filename ≠ "")
    (hempty : ∀ j, j < st.queues.length → ∀ c ∈ (getQ st j).candidates, c.manifest = none) :
    ((getSlot st k).state = RHIZOME_FETCH_FREE →
        rhizome_fetch_close (fuel + 1) env st k = none)
      ∧ ((getSlot st k).state ≠ RHIZOME_FETCH_FREE →
        rhizome_fetch_close (fuel + 1) env st k = some (closedState st k)
          ∧ getSlot (closedState st k) k = closedSlot (getSlot st k)
          ∧ (closedState st k).unlinked = (getSlot st k).filename :: st.unlinked
          ∧ (closedState st k).freed = (getSlot st k).manifest.toList ++ st.freed) := by
  constructor
  · intro hs
    rw [rhizome_fetch_close.eq_def]
    simp only [if_pos hs]
  · intro hs
    refine ⟨close_spec fuel env st k hk hs hfn hempty, ?_, rfl, rfl⟩
    have h : getSlot (closedState st k) k
        = getSlot (setSlot st k (closedSlot (getSlot st k))) k := rfl
    rw [h, getSlot_setSlot_self st k _ hk]

/-- Witness for C5's amended theorem: closing the mid-transfer slot of
`stC5` tears it down completely. -/
theorem c5_close_teardown_witness :
    rhizome_fetch_close 5 envBase stC5 0 = some (closedState stC5 0)
      ∧ getSlot (closedState stC5 0) 0 = closedSlot (getSlot stC5 0)
      ∧ (closedState stC5 0).unlinked = (getSlot stC5 0).filename :: stC5.unlinked
      ∧ (closedState stC5 0).freed = (getSlot stC5 0).manifest.toList ++ stC5.freed :=
  (c5_close_teardown 4 envBase stC5 0 (by decide) (by decide) (by decide)).2 (by decide)

/-! ## Claim C6 — datagram absorption (`rhizome_received_content`) -/

theorem firstMatch_isSome (bp : List Nat) :
    ∀ qs : List FQueue, (firstMatch bp qs).isSome
      ↔ ∃ q ∈ qs, q.active.bidP = true ∧ q.active.bid.take 16 = bp.take 16
  | [] => by simp [firstMatch]
  | q :: qs => by
    by_cases h : q.active.bidP && (q.active.bid.take 16 == bp.take 16)
    · simp only [firstMatch, if_pos h, Option.isSome_some, true_iff]
      refine ⟨q, by simp, ?_⟩
      simpa [Bool.and_eq_true, beq_iff_eq] using h
    · have ih := firstMatch_isSome bp qs
      rw [firstMatch, if_neg h]
      constructor
      · intro hsome
        rcases hm : firstMatch bp qs with _ | j
        · rw [hm] at hsome
          cases hsome
        · obtain ⟨q2, hq2, hcond⟩ := ih.1 (by rw [hm]; rfl)
          exact ⟨q2, by simp [hq2], hcond⟩
      · rintro ⟨q2, hq2, hcond⟩
        rcases List.mem_cons.1 hq2 with rfl | hq2'
        · exact absurd (by simp [Bool.and_eq_true, beq_iff_eq, hcond.1, hcond.2]) h
        · have hsome := ih.2 ⟨q2, hq2', hcond⟩
          rcases hm : firstMatch bp qs with _ | j
          · rw [hm] at hsome
            simp at hsome
          · rfl

theorem setSlot_setSlot (st : St) (k : Nat) (hk : k < st.queues.length) (a b : Slot) :
    setSlot (setSlot st k a) k b = setSlot st k b := by
  unfold setSlot
  rw [getQ_setQ_self st k _ hk]
  unfold setQ
  simp [List.set_set]

theorem closedState_getSlot (st : St) (k : Nat) (hk : k < st.queues.length) :
    getSlot (closedState st k) k = closedSlot (getSlot st k) := by
  have h : getSlot (closedState st k) k
      = getSlot (setSlot st k (closedSlot (getSlot st k))) k := rfl
  rw [h, getSlot_setSlot_self st k _ hk]

theorem closedState_len (st : St) (k : Nat) :
    (closedState st k).queues.length = st.queues.length := by
  have h : (closedState st k).queues
      = (setSlot st k (closedSlot (getSlot st k))).queues := rfl
  rw [h, setSlot_len]

/-- A 32-byte bundle id for the datagram fixtures. -/
def bidC6 : List Nat := List.replicate 32 3

/-- The 16-byte prefix of `bidC6` as carried by the datagram. -/
def bp16 : List Nat := List.replicate 16 3

/-- `stInit` with slot 0 in the **HTTP** `Connecting` state (not the
datagram state `RXFILEMDP`) but with `bidP` set and `bid = bidC6`, as
`rhizome_fetch` leaves it after scheduling an HTTP fetch. -/
def stC6 : St :=
  setSlot stInit 0 { slotFree with
    state := RHIZOME_FETCH_CONNECTING
    manifest := some mW1
    bid := bidC6
    bidP := true
    filename := "payload.cc"
    fileOpen := true
    fd := 9
    watched := true
    alarmScheduled := true }

/-- The result of delivering an in-order 3-byte non-terminal block to
`stC6`. -/
def rcC6 : Int × St :=
  (rhizome_received_content 6 envBase stC6 bp16 5 0 3 [7, 8, 9] 66).getD (-1, stInit)

/-- **C6 counterexample.**  The claim says a datagram is absorbed only if
the slot is in datagram mode.  The C match condition
(rhizome_fetch.c:1254) tests only `slot->bidP` and the 16-byte bid
prefix — not the slot state — so a slot still in the HTTP `Connecting`
state absorbs the datagram: the call returns 0, the bytes are written to
the slot's scratch buffer and `rx_window_start` advances. -/
theorem c6_counterexample :
    (getSlot stC6 0).state = RHIZOME_FETCH_CONNECTING
      ∧ RHIZOME_FETCH_CONNECTING ≠ RHIZOME_FETCH_RXFILEMDP
      ∧ rcC6.1 = 0
      ∧ (getSlot rcC6.2 0).fileContent = [7, 8, 9]
      ∧ (getSlot rcC6.2 0).mdpRXWindowStart = 3 :=
  ⟨by decide, by decide, by decide, by decide, by decide⟩

/-- **C6 (amended).**  An incoming content datagram is absorbed by the
first fetch slot whose `bidP` flag is set and whose bid agrees with the
datagram's bid prefix on the first 16 bytes — the slot state (datagram
mode or not) is **not** part of the match condition (first conjunct:
`firstMatch` succeeds iff such a queue exists).  With no matching slot
the call returns -1 and changes nothing; a matching but out-of-order
datagram (`offset ≠ file_ofs`) returns 0 and changes nothing; an
in-order non-terminal block sets `file_len` to `offset + count + 1`
("one byte still to come"), appends the bytes, advances `file_ofs` and
sets `rx_window_start` to `offset + count`; an in-order terminal (`'T'`)
block sets `file_len` to `offset + count`, completes the transfer —
the bundle is handed to the importer and the slot is closed (state
`Free`, scratch file closed and unlinked). -/
theorem c6_received_content (fuel : Nat) (env : Env) (st : St) (bp : List Nat)
    (v offset count : Int) (bytes : List Nat) (kind : Nat) (k : Nat)
    (hk : k < st.queues.length) :
    ((firstMatch bp st.queues).isSome
        ↔ ∃ q ∈ st.queues, q.active.bidP = true ∧ q.active.bid.take 16 = bp.take 16)
      ∧ (firstMatch bp st.queues = none →
          rhizome_received_content fuel env st bp v offset count bytes kind
            = some (-1, st))
      ∧ (firstMatch bp st.queues = some k → (getSlot st k).file_ofs ≠ offset →
          rhizome_received_content fuel env st bp v offset count bytes kind
            = some (0, st))
      ∧ (firstMatch bp st.queues = some k → (getSlot st k).file_ofs = offset →
          kind ≠ tKind → 0 < count → env.fwriteOk = true →
          rhizome_received_content (fuel + 1) env st bp v offset count bytes kind
            = some (0, setSlot st k { getSlot st k with
                file_len := offset + count + 1
                fileContent := (getSlot st k).fileContent ++ bytes.take count.toNat
                file_ofs := offset + count
                alarmScheduled := true
                mdpRXWindowStart := offset + count }))
      ∧ (∀ m : Manifest, firstMatch bp st.queues = some k →
          (getSlot st k).file_ofs = offset → 0 < count → env.fwriteOk = true →
          (getSlot st k).manifest = some m →
          (getSlot st k).state ≠ RHIZOME_FETCH_FREE →
          (getSlot st k).filename ≠ "" →
          (∀ j, j < st.queues.length → ∀ c ∈ (getQ st j).candidates, c.manifest = none) →
          ∃ st2, rhizome_received_content (fuel + 2) env st bp v offset count bytes tKind
              = some (0, st2)
            ∧ (getSlot st2 k).state = RHIZOME_FETCH_FREE
            ∧ (getSlot st2 k).file_len = offset + count
            ∧ (getSlot st2 k).fileOpen = false
            ∧ (getSlot st2 k).mdpRXWindowStart = offset + count
            ∧ st2.imported = m :: st.imported
            ∧ st2.unlinked = (getSlot st k).filename :: st.unlinked) := by
  refine ⟨firstMatch_isSome bp st.queues, ?_, ?_, ?_, ?_⟩
  · intro h
    simp only [rhizome_received_content, h]
  · intro h hofs
    simp only [rhizome_received_content, h, if_neg hofs]
  · -- in-order, non-terminal
    intro h hofs hkind hcount hfw
    have hwrite : rhizome_write_content (fuel + 1) env
        (setSlot st k { getSlot st k with file_len := offset + count + 1 }) k bytes count
        = some (setSlot st k { getSlot st k with
            file_len := offset + count + 1
            fileContent := (getSlot st k).fileContent ++ bytes.take count.toNat
            file_ofs := offset + count
            alarmScheduled := true }) := by
      rw [rhizome_write_content.eq_def]
      simp only [getSlot_setSlot_self st k _ hk, hofs]
      rw [if_neg (show ¬ count > offset + count + 1 - offset by omega)]
      rw [if_neg (show ¬ (count ≤ 0 ∨ ¬ env.fwriteOk = true) by simp [hfw]; omega)]
      rw [if_neg (show ¬ offset + count ≥ offset + count + 1 by omega)]
      rw [setSlot_setSlot st k hk]
    simp only [rhizome_received_content, h, if_pos hofs, if_neg hkind, hwrite]
    rw [getSlot_setSlot_self st k _ hk, setSlot_setSlot st k hk]
  · -- in-order, terminal
    intro m h hofs hcount hfw hman hstate hfn hempty
    set s2full : Slot := { getSlot st k with
      manifest := some m
      file_len := offset + count
      fileContent := (getSlot st k).fileContent ++ bytes.take count.toNat
      file_ofs := offset + count
      fileOpen := false } with hs2full
    set W : St := { setSlot st k s2full with imported := m :: st.imported } with hW
    have hWq : W.queues.length = st.queues.length := by
      have h0 : W.queues = (setSlot st k s2full).queues := rfl
      rw [h0, setSlot_len]
    have hWslot : getSlot W k = s2full := by
      have h0 : getSlot W k = getSlot (setSlot st k s2full) k := rfl
      rw [h0, getSlot_setSlot_self st k _ hk]
    have hWcand : ∀ j, (getQ W j).candidates = (getQ st j).candidates := by
      intro j
      have h0 : (getQ W j).candidates = (getQ (setSlot st k s2full) j).candidates := rfl
      rw [h0, getQ_setSlot_candidates]
    have hclose := close_spec fuel env W k (by rw [hWq]; exact hk)
      (by rw [hWslot]; simpa [hs2full] using hstate)
      (by rw [hWslot]; simpa [hs2full] using hfn)
      (by
        intro j hj c hc
        rw [hWcand] at hc
        exact hempty j (by rw [hWq] at hj; exact hj) c hc)
    have hwrite : rhizome_write_content (fuel + 2) env
        (setSlot st k { getSlot st k with file_len := offset + count }) k bytes count
        = rhizome_fetch_close (fuel + 1) env W k := by
      rw [rhizome_write_content.eq_def]
      simp only [getSlot_setSlot_self st k _ hk, hofs]
      rw [if_neg (show ¬ count > offset + count - offset by omega)]
      rw [if_neg (show ¬ (count ≤ 0 ∨ ¬ env.fwriteOk = true) by simp [hfw]; omega)]
      rw [if_pos (show offset + count ≥ offset + count by omega)]
      simp only [hman]
      rw [setSlot_setSlot st k hk]
      rfl
    have hk2 : k < (closedState W k).queues.length := by
      rw [closedState_len, hWq]
      exact hk
    refine ⟨setSlot (closedState W k) k
      { getSlot (closedState W k) k with mdpRXWindowStart := offset + count },
      ?_, ?_, ?_, ?_, ?_, ?_, ?_⟩
    · simp only [rhizome_received_content, h]
      rw [if_pos hofs]
      simp only [ite_true]
      rw [hwrite, hclose]
    · rw [getSlot_setSlot_self _ _ _ hk2, closedState_getSlot W k (by rw [hWq]; exact hk),
        hWslot]
      rfl
    · rw [getSlot_setSlot_self _ _ _ hk2, closedState_getSlot W k (by rw [hWq]; exact hk),
        hWslot]
      rfl
    · rw [getSlot_setSlot_self _ _ _ hk2, closedState_getSlot W k (by rw [hWq]; exact hk),
        hWslot]
      rfl
    · rw [getSlot_setSlot_self _ _ _ hk2]
    · rfl
    · have h0 : (setSlot (closedState W k) k
          { getSlot (closedState W k) k with
            mdpRXWindowStart := offset + count }).unlinked
          = (getSlot W k).filename :: W.unlinked := rfl
      rw [h0, hWslot]
      rfl

/-- Witness for C6's amended theorem at the `stC6` fixture: the match
characterisation, a non-matching prefix, an out-of-order block, an
in-order non-terminal block and an in-order terminal block. -/
theorem c6_received_content_witness :
    ((firstMatch bp16 stC6.queues).isSome
        ↔ ∃ q ∈ stC6.queues, q.active.bidP = true ∧ q.active.bid.take 16 = bp16.take 16)
      ∧ rhizome_received_content 6 envBase stC6 (List.replicate 16 4) 5 0 3 [7, 8, 9] 66
          = some (-1, stC6)
      ∧ rhizome_received_content 6 envBase stC6 bp16 5 5 3 [7, 8, 9] 66 = some (0, stC6)
      ∧ rhizome_received_content 7 envBase stC6 bp16 5 0 3 [7, 8, 9] 66
          = some (0, setSlot stC6 0 { getSlot stC6 0 with
              file_len := 0 + 3 + 1
              fileContent := (getSlot stC6 0).fileContent ++ [7, 8, 9].take (3 : Int).toNat
              file_ofs := 0 + 3
              alarmScheduled := true
              mdpRXWindowStart := 0 + 3 })
      ∧ (∃ st2, rhizome_received_content 8 envBase stC6 bp16 5 0 3 [7, 8, 9] tKind
            = some (0, st2)
          ∧ (getSlot st2 0).state = RHIZOME_FETCH_FREE
          ∧ (getSlot st2 0).file_len = 0 + 3
          ∧ (getSlot st2 0).fileOpen = false
          ∧ (getSlot st2 0).mdpRXWindowStart = 0 + 3
          ∧ st2.imported = mW1 :: stC6.imported
          ∧ st2.unlinked = (getSlot stC6 0).filename :: stC6.unlinked) :=
  ⟨(c6_received_content 6 envBase stC6 bp16 5 0 3 [7, 8, 9] 66 0 (by decide)).1,
    (c6_received_content 6 envBase stC6 (List.replicate 16 4) 5 0 3 [7, 8, 9] 66 0
      (by decide)).2.1 (by decide),
    (c6_received_content 6 envBase stC6 bp16 5 5 3 [7, 8, 9] 66 0 (by decide)).2.2.1
      (by decide) (by decide),
    (c6_received_content 6 envBase stC6 bp16 5 0 3 [7, 8, 9] 66 0 (by decide)).2.2.2.1
      (by decide) (by decide) (by decide) (by decide) (by decide),
    (c6_received_content 6 envBase stC6 bp16 5 0 3 [7, 8, 9] tKind 0 (by decide)).2.2.2.2
      mW1 (by decide) (by decide) (by decide) (by decide) (by decide) (by decide)
      (by decide) (by decide)⟩

/-! ## Claim C7 — the block-request frame layout -/

theorem beBytes_length (w v : Nat) : (beBytes w v).length = w := by
  simp [beBytes]

/-- `stInit` with slot 0 fetching a payload over MDP: 32-byte bid,
version 5, window start 7, bitmap 9, 200-byte blocks, alarm fresh. -/
def stC7 : St :=
  setSlot stInit 0 { slotFree with
    state := RHIZOME_FETCH_RXFILEMDP
    peer := peerW
    bid := bidC6
    bidVersion := 5
    bidP := true
    mdpLastRX := 1000
    mdpIdleTimeout := 5000
    mdpRXWindowStart := 7
    mdpRXBitmap := 9
    mdpRXBlockLength := 200 }

/-- The state after one `rhizome_fetch_mdp_requestblocks` on `stC7`. -/
def rbC7 : St := (rhizome_fetch_mdp_requestblocks 5 envBase stC7 0).getD stInit

/-- The all-zero overlay frame (default for `headD`). -/
def frame0 : MdpFrame :=
  { srcSid := [], srcPort := 0, dstSid := [], dstPort := 0, ttl := 0, qos := 0
    payload := [] }

/-- **C7 counterexample.**  The claim says every block-request datagram
is 62 bytes with the 2-byte block length at offset 56.  The C emits
`RHIZOME_BAR_BYTES + 8 + 8 + 4 + 2 = 54` bytes (rhizome_fetch.c:1049),
with the block length written at offset `RHIZOME_BAR_BYTES + 20 = 52`:
the concrete frame emitted for `stC7` is 54 bytes long and its last two
bytes — offsets 52 and 53 — hold the big-endian block length 200; there
is no offset 56. -/
theorem c7_counterexample :
    (rbC7.sentFrames.headD frame0).payload.length = 54
      ∧ (54 : Nat) ≠ 62
      ∧ (rbC7.sentFrames.headD frame0).payload.drop 52 = [0, 200] :=
  ⟨by decide, by decide, by decide⟩

/-- **C7 (amended).**  Every payload block-request datagram emitted by
the datagram transport is **54** bytes in total
(`RHIZOME_BAR_BYTES + 8 + 8 + 4 + 2`), laid out as the 32-byte manifest
id at offset 0, the 8-byte big-endian version at offset 32, the 8-byte
big-endian `rx_window_start` at offset 40, the 4-byte big-endian
`rx_bitmap` at offset 48 and the 2-byte big-endian `rx_block_len` at
offset **52**, and is addressed from the local subscriber's
rhizome-response port to the peer's rhizome-request port with `ttl = 1`
and ordinary queue priority.  Stated for a slot whose idle timeout has
not expired (otherwise the slot is closed instead) and whose bid is the
full 32 bytes. -/
theorem c7_requestblocks_layout (fuel : Nat) (env : Env) (st : St) (k : Nat)
    (hrx : ¬ env.now - (getSlot st k).mdpLastRX > (getSlot st k).mdpIdleTimeout)
    (hbid : (getSlot st k).bid.length = 32) :
    ∃ fr st2, rhizome_fetch_mdp_requestblocks (fuel + 1) env st k = some st2
      ∧ st2.sentFrames = fr :: st.sentFrames
      ∧ fr.payload.length = 54
      ∧ fr.payload.take 32 = (getSlot st k).bid
      ∧ (fr.payload.drop 32).take 8 = beBytes 8 (intToU64 (getSlot st k).bidVersion)
      ∧ (fr.payload.drop 40).take 8
          = beBytes 8 (intToU64 (getSlot st k).mdpRXWindowStart)
      ∧ (fr.payload.drop 48).take 4 = beBytes 4 ((getSlot st k).mdpRXBitmap % 2 ^ 32)
      ∧ (fr.payload.drop 52).take 2
          = beBytes 2 ((getSlot st k).mdpRXBlockLength % 2 ^ 16)
      ∧ fr.srcSid = env.mySid ∧ fr.srcPort = env.portResponse
      ∧ fr.dstSid = (getSlot st k).peer.sid ∧ fr.dstPort = env.portRequest
      ∧ fr.ttl = 1 ∧ fr.qos = OQ_ORDINARY := by
  have htakebid : (getSlot st k).bid.take RHIZOME_MANIFEST_ID_BYTES = (getSlot st k).bid :=
    List.take_of_length_le (by rw [hbid]; decide)
  have hA : ((getSlot st k).bid.take RHIZOME_MANIFEST_ID_BYTES).length = 32 := by
    rw [htakebid, hbid]
  rw [rhizome_fetch_mdp_requestblocks.eq_def]
  simp only [if_neg hrx]
  refine ⟨_, _, rfl, rfl, ?_, ?_, ?_, ?_, ?_, ?_, rfl, rfl, rfl, rfl, rfl, rfl⟩
  · simp only [List.length_append, beBytes_length, hA]
  · simp only [List.append_assoc]
    rw [List.take_left' hA, htakebid]
  · simp only [List.append_assoc]
    rw [List.drop_left' hA, List.take_left' (beBytes_length 8 _)]
  · simp only [List.append_assoc]
    rw [show (40 : Nat) = 32 + 8 from rfl, ← List.drop_drop, List.drop_left' hA,
      List.drop_left' (beBytes_length 8 _), List.take_left' (beBytes_length 8 _)]
  · simp only [List.append_assoc]
    rw [show (48 : Nat) = 32 + 8 + 8 from rfl, ← List.drop_drop, ← List.drop_drop,
      List.drop_left' hA, List.drop_left' (beBytes_length 8 _),
      List.drop_left' (beBytes_length 8 _), List.take_left' (beBytes_length 4 _)]
  · simp only [List.append_assoc]
    rw [show (52 : Nat) = 32 + 8 + 8 + 4 from rfl, ← List.drop_drop, ← List.drop_drop,
      ← List.drop_drop, List.drop_left' hA, List.drop_left' (beBytes_length 8 _),
      List.drop_left' (beBytes_length 8 _), List.drop_left' (beBytes_length 4 _)]
    exact List.take_of_length_le (by rw [beBytes_length])

/-- Witness for C7's amended theorem on the concrete slot of `stC7`. -/
theorem c7_requestblocks_layout_witness :
    ∃ fr st2, rhizome_fetch_mdp_requestblocks 5 envBase stC7 0 = some st2
      ∧ st2.sentFrames = fr :: stC7.sentFrames
      ∧ fr.payload.length = 54
      ∧ fr.payload.take 32 = (getSlot stC7 0).bid
      ∧ (fr.payload.drop 32).take 8 = beBytes 8 (intToU64 (getSlot stC7 0).bidVersion)
      ∧ (fr.payload.drop 40).take 8
          = beBytes 8 (intToU64 (getSlot stC7 0).mdpRXWindowStart)
      ∧ (fr.payload.drop 48).take 4 = beBytes 4 ((getSlot stC7 0).mdpRXBitmap % 2 ^ 32)
      ∧ (fr.payload.drop 52).take 2
          = beBytes 2 ((getSlot stC7 0).mdpRXBlockLength % 2 ^ 16)
      ∧ fr.srcSid = envBase.mySid ∧ fr.srcPort = envBase.portResponse
      ∧ fr.dstSid = (getSlot stC7 0).peer.sid ∧ fr.dstPort = envBase.portRequest
      ∧ fr.ttl = 1 ∧ fr.qos = OQ_ORDINARY :=
  c7_requestblocks_layout 4 envBase stC7 0 (by decide) (by decide)

/-! ## Claim C8 — the duplicate scan of `rhizome_suggest_queue_manifest_import` -/

/-- The number of queued candidates across all queues ("queue
cardinality"). -/
def totalQueued (st : St) : Nat :=
  (st.queues.map (fun q => countM q.candidates)).sum

theorem shiftTail_length (c : Candidate) :
    ∀ rest : List Candidate, (shiftTail c rest).length = rest.length + 1
  | [] => by simp [shiftTail]
  | c2 :: r => by
    rcases h2 : c2.manifest with _ | m2 <;>
      simp [shiftTail, h2, shiftTail_length c2 r]

theorem contig_append_none {l : List (Option Manifest)} (h : contigProp l) :
    contigProp (l ++ [none]) := by
  intro j hj i hij hi
  rw [List.length_append, List.length_singleton] at hj
  by_cases hjl : j < l.length
  · have hil : i < l.length := lt_trans hij hjl
    rw [List.getD_append _ _ _ _ hil] at hi
    rw [List.getD_append _ _ _ _ hjl]
    exact h j hjl i hij hi
  · have hj' : j = l.length := by omega
    subst hj'
    rw [List.getD_append_right _ _ _ _ (le_refl _)]
    simp

/-- Every element of the shifted queue is either empty or carries the
manifest of some element of the original suffix. -/
theorem shiftTail_manifest_source (c : Candidate) :
    ∀ rest : List Candidate, ∀ c2 ∈ shiftTail c rest,
      c2.manifest = none ∨ ∃ c3 ∈ rest, c2.manifest = c3.manifest
  | [] => by
    intro c2 h2
    simp only [shiftTail, List.mem_singleton] at h2
    subst h2
    exact Or.inl rfl
  | c3 :: r => by
    intro c2 h2
    rcases h3 : c3.manifest with _ | m3
    · simp only [shiftTail, h3, List.mem_cons] at h2
      rcases h2 with h2 | h2 | h2
      · subst h2
        exact Or.inl rfl
      · subst h2
        exact Or.inr ⟨c2, by simp, rfl⟩
      · exact Or.inr ⟨c2, by simp [h2], rfl⟩
    · simp only [shiftTail, h3, List.mem_cons] at h2
      rcases h2 with h2 | h2
      · subst h2
        exact Or.inr ⟨c2, by simp, rfl⟩
      · rcases shiftTail_manifest_source c3 r c2 h2 with hn | ⟨c4, hc4, he4⟩
        · exact Or.inl hn
        · exact Or.inr ⟨c4, by simp [hc4], he4⟩

/-- Every manifest of the original suffix survives somewhere in the
shifted queue. -/
theorem shiftTail_mem_manifest (c : Candidate) :
    ∀ rest : List Candidate, ∀ c2 ∈ rest,
      ∃ c3 ∈ shiftTail c rest, c3.manifest = c2.manifest
  | [] => by
    intro c2 h2
    simp at h2
  | c3 :: r => by
    intro c2 h2
    rcases h3 : c3.manifest with _ | m3
    · rcases List.mem_cons.1 h2 with rfl | h2'
      · exact ⟨c2, by simp [shiftTail, h3], rfl⟩
      · exact ⟨c2, by simp [shiftTail, h3, h2'], rfl⟩
    · rcases List.mem_cons.1 h2 with rfl | h2'
      · exact ⟨c2, by simp [shiftTail, h3], rfl⟩
      · obtain ⟨c4, hc4, he4⟩ := shiftTail_mem_manifest c3 r c2 h2'
        exact ⟨c4, by simp [shiftTail, h3, hc4], he4⟩

/-- The per-queue duplicate scan when every queued same-id candidate has
an equal-or-newer version: with a same-id candidate present the scan
stops with `foundNewer` and the queue untouched; with none present it
falls through with the queue untouched. -/
theorem scanInner_all_newer (env : Env) (m : Manifest) (isTarget : Bool) (pr : Int) :
    ∀ (cs : List Candidate) (fuel j : Nat) (ci : Option Nat),
      cs.length < fuel →
      contigProp (mques cs) →
      (∀ c ∈ cs, ∀ cm ∈ c.manifest.toList,
        cm.cryptoSignPublic = m.cryptoSignPublic → m.version ≤ cm.version) →
      ((∃ c ∈ cs, ∃ cm ∈ c.manifest.toList, cm.cryptoSignPublic = m.cryptoSignPublic) →
          scanInner env m isTarget pr fuel j ci cs = (cs, [], .foundNewer))
        ∧ (¬ (∃ c ∈ cs, ∃ cm ∈ c.manifest.toList,
            cm.cryptoSignPublic = m.cryptoSignPublic) →
          ∃ ci2, scanInner env m isTarget pr fuel j ci cs = (cs, [], .fallthrough ci2)) := by
  intro cs
  induction cs with
  | nil =>
    intro fuel j ci hfuel _ _
    cases fuel with
    | zero => omega
    | succ f =>
      refine ⟨fun hdup => ?_, fun _ => ⟨ci, rfl⟩⟩
      obtain ⟨c, hc, _⟩ := hdup
      simp at hc
  | cons c rest ih =>
    intro fuel j ci hfuel hcontig hall
    cases fuel with
    | zero => omega
    | succ f =>
      rcases hcm : c.manifest with _ | cm
      · have hrest : ∀ c2 ∈ rest, c2.manifest = none := by
          have hc : contigProp ((none : Option Manifest) :: mques rest) := by
            rw [← hcm, ← mques_cons]
            exact hcontig
          have hrep := contig_cons_none hc
          intro c2 hc2
          have hmem : c2.manifest ∈ mques rest := List.mem_map_of_mem _ hc2
          rw [hrep] at hmem
          exact List.eq_of_mem_replicate hmem
        constructor
        · intro hdup
          exfalso
          obtain ⟨c2, hc2, cm2, hcm2, _⟩ := hdup
          rcases List.mem_cons.1 hc2 with rfl | hc2'
          · rw [hcm] at hcm2
            simp at hcm2
          · rw [hrest c2 hc2'] at hcm2
            simp at hcm2
        · intro _
          exact ⟨if ci.isNone && isTarget then some j else ci, by simp [scanInner, hcm]⟩
      · by_cases hid : cm.cryptoSignPublic = m.cryptoSignPublic
        · have hge : cm.version ≥ m.version := hall c (by simp) cm (by simp [hcm]) hid
          constructor
          · intro _
            simp [scanInner, hcm, hid, hge]
          · intro hno
            exact absurd ⟨c, by simp, cm, by simp [hcm], hid⟩ hno
        · have htail := ih f (j + 1)
            (if ci.isNone && isTarget && decide (c.priority < pr) then some j else ci)
            (by simpa using Nat.lt_of_succ_lt_succ hfuel)
            (by rw [mques_cons] at hcontig; exact contig_tail hcontig)
            (fun c2 hc2 => hall c2 (by simp [hc2]))
          constructor
          · intro hdup
            have hdup' : ∃ c2 ∈ rest, ∃ cm2 ∈ c2.manifest.toList,
                cm2.cryptoSignPublic = m.cryptoSignPublic := by
              obtain ⟨c2, hc2, cm2, hcm2, hid2⟩ := hdup
              rcases List.mem_cons.1 hc2 with rfl | hc2'
              · rw [hcm] at hcm2
                simp at hcm2
                subst hcm2
                exact absurd hid2 hid
              · exact ⟨c2, hc2', cm2, hcm2, hid2⟩
            have hr := htail.1 hdup'
            simp only [scanInner, hcm]
            rw [if_neg hid, hr]
          · intro hno
            have hno' : ¬ ∃ c2 ∈ rest, ∃ cm2 ∈ c2.manifest.toList,
                cm2.cryptoSignPublic = m.cryptoSignPublic := by
              rintro ⟨c2, hc2, hx⟩
              exact hno ⟨c2, by simp [hc2], hx⟩
            obtain ⟨ci2, hci2⟩ := htail.2 hno'
            refine ⟨ci2, ?_⟩
            simp only [scanInner, hcm]
            rw [if_neg hid, hci2]

/-- The whole-array duplicate scan when every queued same-id candidate
has an equal-or-newer version and at least one exists: `foundNewer`,
queues untouched, nothing evicted. -/
theorem scanQueues_all_newer (env : Env) (m : Manifest) (qiIdx : Nat) (pr : Int) :
    ∀ (qs : List FQueue) (i : Nat) (ci : Option Nat),
      (∀ q ∈ qs, contigProp (mques q.candidates)) →
      (∀ q ∈ qs, ∀ c ∈ q.candidates, ∀ cm ∈ c.manifest.toList,
        cm.cryptoSignPublic = m.cryptoSignPublic → m.version ≤ cm.version) →
      (∃ q ∈ qs, ∃ c ∈ q.candidates, ∃ cm ∈ c.manifest.toList,
        cm.cryptoSignPublic = m.cryptoSignPublic) →
      scanQueues env m qiIdx pr i ci qs = (qs, [], .foundNewer) := by
  intro qs
  induction qs with
  | nil =>
    intro i ci _ _ hdup
    obtain ⟨q, hq, _⟩ := hdup
    simp at hq
  | cons q qs' ih =>
    intro i ci hcontig hall hdup
    have hinner := scanInner_all_newer env m (i == qiIdx) pr q.candidates
      (countM q.candidates + q.candidates.length + 1) 0 ci (by omega)
      (hcontig q (by simp)) (fun c hc => hall q (by simp) c hc)
    by_cases hdq : ∃ c ∈ q.candidates, ∃ cm ∈ c.manifest.toList,
        cm.cryptoSignPublic = m.cryptoSignPublic
    · have h1 := hinner.1 hdq
      simp [scanQueues, h1]
    · obtain ⟨ci2, h1⟩ := hinner.2 hdq
      have hdup' : ∃ q2 ∈ qs', ∃ c ∈ q2.candidates, ∃ cm ∈ c.manifest.toList,
          cm.cryptoSignPublic = m.cryptoSignPublic := by
        obtain ⟨q2, hq2, hx⟩ := hdup
        rcases List.mem_cons.1 hq2 with rfl | hq2'
        · exact absurd hx hdq
        · exact ⟨q2, hq2', hx⟩
      have h2 := ih (i + 1) ci2 (fun q2 hq2 => hcontig q2 (by simp [hq2]))
        (fun q2 hq2 => hall q2 (by simp [hq2])) hdup'
      simp [scanQueues, h1, h2]

/-- The per-queue duplicate scan when every queued same-id candidate is
strictly older and the new manifest is self-signed or verifies: the scan
falls through and every same-id manifest of the queue lands in the
evicted list. -/
theorem scanInner_evict (env : Env) (m : Manifest) (isTarget : Bool) (pr : Int)
    (hver : ¬ (¬ m.selfSigned = true ∧ ¬ env.verifies m = true)) :
    ∀ (fuel : Nat) (cs : List Candidate) (j : Nat) (ci : Option Nat),
      countM cs + cs.length < fuel →
      contigProp (mques cs) →
      (∀ c ∈ cs, ∀ cm ∈ c.manifest.toList,
        cm.cryptoSignPublic = m.cryptoSignPublic → cm.version < m.version) →
      ∃ cs2 ev ci2, scanInner env m isTarget pr fuel j ci cs = (cs2, ev, .fallthrough ci2)
        ∧ ∀ c ∈ cs, ∀ cm ∈ c.manifest.toList,
            cm.cryptoSignPublic = m.cryptoSignPublic → cm ∈ ev := by
  intro fuel
  induction fuel with
  | zero =>
    intro cs j ci hfuel
    omega
  | succ f ih =>
    intro cs j ci hfuel hcontig hall
    cases cs with
    | nil => exact ⟨[], [], ci, by simp [scanInner], by simp⟩
    | cons c rest =>
      rcases hcm : c.manifest with _ | cm
      · refine ⟨c :: rest, [], if ci.isNone && isTarget then some j else ci,
          by simp [scanInner, hcm], ?_⟩
        have hrest : ∀ c2 ∈ rest, c2.manifest = none := by
          have hc : contigProp ((none : Option Manifest) :: mques rest) := by
            rw [← hcm, ← mques_cons]
            exact hcontig
          have hrep := contig_cons_none hc
          intro c2 hc2
          have hmem : c2.manifest ∈ mques rest := List.mem_map_of_mem _ hc2
          rw [hrep] at hmem
          exact List.eq_of_mem_replicate hmem
        intro c2 hc2 cm2 hcm2 _
        exfalso
        rcases List.mem_cons.1 hc2 with rfl | hc2'
        · rw [hcm] at hcm2
          simp at hcm2
        · rw [hrest c2 hc2'] at hcm2
          simp at hcm2
      · have hct : contigProp (mques rest) := by
          rw [mques_cons] at hcontig
          exact contig_tail hcontig
        have hcount : countM (c :: rest) = countM rest + 1 := by
          simp [countM, List.countP_cons, hcm]
        by_cases hid : cm.cryptoSignPublic = m.cryptoSignPublic
        · have hlt : cm.version < m.version := hall c (by simp) cm (by simp [hcm]) hid
          have hnge : ¬ cm.version ≥ m.version := by omega
          have hcontig' : contigProp (mques (shiftTail c rest)) := by
            rw [mques_shiftTail c rest hct]
            exact contig_append_none hct
          have hfuel' : countM (shiftTail c rest) + (shiftTail c rest).length < f := by
            rw [countM_shiftTail, shiftTail_length]
            simp only [hcount, List.length_cons] at hfuel
            omega
          have hall' : ∀ c2 ∈ shiftTail c rest, ∀ cm2 ∈ c2.manifest.toList,
              cm2.cryptoSignPublic = m.cryptoSignPublic → cm2.version < m.version := by
            intro c2 hc2 cm2 hcm2 hid2
            rcases shiftTail_manifest_source c rest c2 hc2 with hn | ⟨c3, hc3, he3⟩
            · rw [hn] at hcm2
              simp at hcm2
            · rw [he3] at hcm2
              exact hall c3 (by simp [hc3]) cm2 hcm2 hid2
          obtain ⟨cs2, ev, ci2, heq, hmem⟩ := ih (shiftTail c rest) j ci hfuel'
            hcontig' hall'
          refine ⟨cs2, cm :: ev, ci2, ?_, ?_⟩
          · simp only [scanInner, hcm]
            rw [if_pos hid, if_neg hnge, if_neg hver, heq]
          intro c2 hc2 cm2 hcm2 hid2
          rcases List.mem_cons.1 hc2 with rfl | hc2'
          · rw [hcm] at hcm2
            simp at hcm2
            subst hcm2
            simp
          · obtain ⟨c3, hc3, he3⟩ := shiftTail_mem_manifest c rest c2 hc2'
            rw [← he3] at hcm2
            exact List.mem_cons_of_mem _ (hmem c3 hc3 cm2 hcm2 hid2)
        · have hfuel' : countM rest + rest.length < f := by
            simp only [hcount, List.length_cons] at hfuel
            omega
          obtain ⟨cs2, ev, ci2, heq, hmem⟩ := ih rest (j + 1)
            (if ci.isNone && isTarget && decide (c.priority < pr) then some j else ci)
            hfuel' hct (fun c2 hc2 => hall c2 (by simp [hc2]))
          refine ⟨c :: cs2, ev, ci2, ?_, ?_⟩
          · simp only [scanInner, hcm]
            rw [if_neg hid, heq]
          intro c2 hc2 cm2 hcm2 hid2
          rcases List.mem_cons.1 hc2 with rfl | hc2'
          · rw [hcm] at hcm2
            simp at hcm2
            subst hcm2
            exact absurd hid2 hid
          · exact hmem c2 hc2' cm2 hcm2 hid2

/-- The whole-array duplicate scan when every queued same-id candidate
is strictly older: the scan falls through and every same-id manifest of
every queue lands in the evicted list. -/
theorem scanQueues_evict (env : Env) (m : Manifest) (qiIdx : Nat) (pr : Int)
    (hver : ¬ (¬ m.selfSigned = true ∧ ¬ env.verifies m = true)) :
    ∀ (qs : List FQueue) (i : Nat) (ci : Option Nat),
      (∀ q ∈ qs, contigProp (mques q.candidates)) →
      (∀ q ∈ qs, ∀ c ∈ q.candidates, ∀ cm ∈ c.manifest.toList,
        cm.cryptoSignPublic = m.cryptoSignPublic → cm.version < m.version) →
      ∃ qs2 ev ci2, scanQueues env m qiIdx pr i ci qs = (qs2, ev, .fallthrough ci2)
        ∧ ∀ q ∈ qs, ∀ c ∈ q.candidates, ∀ cm ∈ c.manifest.toList,
            cm.cryptoSignPublic = m.cryptoSignPublic → cm ∈ ev := by
  intro qs
  induction qs with
  | nil =>
    intro i ci _ _
    exact ⟨[], [], ci, by simp [scanQueues], by simp⟩
  | cons q qs' ih =>
    intro i ci hcontig hall
    obtain ⟨cs2, ev1, ci2, heq1, hm1⟩ := scanInner_evict env m (i == qiIdx) pr hver
      (countM q.candidates + q.candidates.length + 1) q.candidates 0 ci (by omega)
      (hcontig q (by simp)) (fun c hc => hall q (by simp) c hc)
    obtain ⟨qs2, ev2, ci3, heq2, hm2⟩ := ih (i + 1) ci2
      (fun q2 hq2 => hcontig q2 (by simp [hq2]))
      (fun q2 hq2 => hall q2 (by simp [hq2]))
    refine ⟨{ q with candidates := cs2 } :: qs2, ev1 ++ ev2, ci3,
      by simp [scanQueues, heq1, heq2], ?_⟩
    intro q2 hq2 c hc cm hcm hid
    rcases List.mem_cons.1 hq2 with rfl | hq2'
    · exact List.mem_append_left _ (hm1 c hc cm hcm hid)
    · exact List.mem_append_right _ (hm2 q2 hq2' c hc cm hcm hid)

/-- An environment where only self-signed manifests verify. -/
def envC8 : Env := { envBase with verifies := fun mf => mf.selfSigned }

/-- A manifest that is not self-signed and whose signature is bad under
`envC8`. -/
def mBad : Manifest :=
  { cryptoSignPublic := [3], idField := true, version := 5, fileLength := 50
    fileHashedP := true, fileHexHash := "c3", selfSigned := false, ttl := 2 }

/-- The same bundle id and version, self-signed. -/
def mBadEq : Manifest := { mBad with selfSigned := true }

/-- The state after `suggest(mBad, peerW)` on the empty engine. -/
def sugC8a : Int × St := rhizome_suggest_queue_manifest_import envC8 stInit mBad peerW

/-- The state after the immediately following `suggest(mBadEq, peerW)`. -/
def sugC8b : Int × St := rhizome_suggest_queue_manifest_import envC8 sugC8a.2 mBadEq peerW

/-- **C8 counterexample.**  The claim quantifies over *every* manifest
`m` and peers: `suggest(m, p); suggest(m', p')` with `m'` of the same id
and equal version must leave queue cardinality unchanged.  When the
first `suggest` fails verification (`mBad` is neither self-signed nor
validly signed) it frees the manifest *without queueing it*, so the
second `suggest` of the equal-version `mBadEq` finds no queued duplicate
and inserts: cardinality goes from 0 to 1. -/
theorem c8_counterexample :
    mBadEq.cryptoSignPublic = mBad.cryptoSignPublic
      ∧ mBadEq.version = mBad.version
      ∧ totalQueued sugC8a.2 = 0
      ∧ totalQueued sugC8b.2 = 1
      ∧ totalQueued sugC8b.2 ≠ totalQueued sugC8a.2 :=
  ⟨by decide, by decide, by decide, by decide, by decide⟩

/-- **C8 (amended).**  For a manifest `m` that reaches the duplicate
scan (store does not supersede it, non-nil payload, a size queue
exists), over contiguous queues: **(a)** if some candidate with `m`'s id
is queued and every queued candidate with `m`'s id has an equal-or-newer
version, `suggest` finds it, frees the new manifest and returns 0
without inserting — the queues (hence the queue cardinality) are
unchanged; **(b)** if `m` is self-signed and every queued candidate with
`m`'s id is strictly older, each such candidate's manifest is evicted
and freed before insertion proceeds.  (The claim's universal form is
false — see the counterexample — because a first `suggest` that fails
verification queues nothing.) -/
theorem c8_suggest_dedup (env : Env) (st : St) (m : Manifest) (peer : Peer) (qi : Nat)
    (hlook : rhizome_manifest_version_cache_lookup env m = 0)
    (hflen : m.fileLength ≠ 0)
    (hfq : rhizome_find_queue st.queues m.fileLength = some qi)
    (hcontig : ∀ q ∈ st.queues, contigProp (mques q.candidates)) :
    ((∀ q ∈ st.queues, ∀ c ∈ q.candidates, ∀ cm ∈ c.manifest.toList,
          cm.cryptoSignPublic = m.cryptoSignPublic → m.version ≤ cm.version) →
      (∃ q ∈ st.queues, ∃ c ∈ q.candidates, ∃ cm ∈ c.manifest.toList,
          cm.cryptoSignPublic = m.cryptoSignPublic) →
      rhizome_suggest_queue_manifest_import env st m peer
          = (0, { st with freed := m :: st.freed })
        ∧ totalQueued (rhizome_suggest_queue_manifest_import env st m peer).2
          = totalQueued st)
      ∧ (m.selfSigned = true →
        (∀ q ∈ st.queues, ∀ c ∈ q.candidates, ∀ cm ∈ c.manifest.toList,
          cm.cryptoSignPublic = m.cryptoSignPublic → cm.version < m.version) →
        ∀ cm, (∃ q ∈ st.queues, ∃ c ∈ q.candidates, cm ∈ c.manifest.toList) →
          cm.cryptoSignPublic = m.cryptoSignPublic →
          cm ∈ (rhizome_suggest_queue_manifest_import env st m peer).2.freed) := by
  constructor
  · intro hall hdup
    have hscan := scanQueues_all_newer env m qi 100 st.queues 0 none hcontig hall hdup
    have heq : rhizome_suggest_queue_manifest_import env st m peer
        = (0, { st with freed := m :: st.freed }) := by
      simp only [rhizome_suggest_queue_manifest_import, hlook, hflen, hfq, hscan]
      simp
    refine ⟨heq, ?_⟩
    rw [heq]
    rfl
  · intro hss hallold cm hcmmem hid
    have hver : ¬ (¬ m.selfSigned = true ∧ ¬ env.verifies m = true) := by simp [hss]
    obtain ⟨qs2, ev, ci2, heq, hmem⟩ := scanQueues_evict env m qi 100 hver st.queues 0
      none hcontig hallold
    have hev : cm ∈ ev := by
      obtain ⟨q, hq, c, hc, hcm⟩ := hcmmem
      exact hmem q hq c hc cm hcm hid
    simp only [rhizome_suggest_queue_manifest_import, hlook, hflen, hfq, heq]
    rcases ci2 with _ | ciV
    · simp [List.mem_append, hev]
    · simp only [hver, if_neg, ite_false]
      simp [List.mem_append, hev, hver]

/-- Witness for C8's amended theorem: on `stC2` (which queues `mW1` at
version 4), re-suggesting `mW1` itself dedups with the queues untouched,
and suggesting a self-signed version 9 of the same bundle evicts and
frees the queued version-4 manifest. -/
theorem c8_suggest_dedup_witness :
    (rhizome_suggest_queue_manifest_import envBase stC2 mW1 peerW
        = (0, { stC2 with freed := mW1 :: stC2.freed })
      ∧ totalQueued (rhizome_suggest_queue_manifest_import envBase stC2 mW1 peerW).2
        = totalQueued stC2)
      ∧ mW1 ∈ (rhizome_suggest_queue_manifest_import envBase stC2
          { mW1 with version := 9, selfSigned := true } peerW).2.freed :=
  ⟨(c8_suggest_dedup envBase stC2 mW1 peerW 0 (by decide) (by decide) (by decide)
      (by decide)).1 (by decide) (by decide),
    (c8_suggest_dedup envBase stC2 { mW1 with version := 9, selfSigned := true } peerW 0
      (by decide) (by decide) (by decide) (by decide)).2 (by decide) (by decide) mW1
      (by decide) (by decide)⟩

end RhizomeFetch
